import Mathlib

/-!
Shallow embedding of the windowed message-log synchronization engine of
`addons/mail/static/src/core/common/thread_model.js` (class `Thread`), together
with proofs about its fetch/merge algorithms.

Modelling conventions:
* JS numbers that hold message ids are modelled as `Rat`: persisted ids are
  integers (`Number.isInteger` is `Rat.isInt`), temporary/transient ids are
  non-integer rationals, exactly as the code distinguishes them.
* The reactive record lists (`Record.many`) are modelled as plain Lean lists;
  `push`/`unshift`/`splice` are positional list operations.
* The remote transport (`rpc`) is a parameter: a function from the request the
  code builds to an outcome (a raw message list, newest first, or a failure).
* The single `await` suspension of a fetch is modelled by an explicit
  `interfere : Thread → Thread` function applied to the thread state while the
  fetch is in flight; `id` means no concurrent mutation.
-/

/-- Message record: only the attributes the window algorithms read.
`id` is the JS number (integer when persisted), `is_transient` the server-side
transient flag, `authorIsSelf` models `message.author.eq(this.store.self)`,
`isReadBySelf` the derived read flag used by `markAsRead`. -/
structure Message where
  id : Rat
  isEmpty : Bool := false
  is_transient : Bool := false
  authorIsSelf : Bool := false
  isReadBySelf : Bool := false
deriving Repr, DecidableEq

/-- Channel member record: the fields `markAsRead` touches. -/
structure Member where
  seen_message_id : Option Message := none
  syncUnread : Bool := false
deriving Repr, DecidableEq

/-- The thread's fetch status state machine: `"new" | "loading" | "ready"`. -/
inductive Status where
  | new
  | loading
  | ready
deriving Repr, DecidableEq

/-- The thread model kinds the fetch code distinguishes:
`"discuss.channel"`, `"mail.box"`, and everything else. -/
inductive ThreadModel where
  | channel
  | mailbox
  | other
deriving Repr, DecidableEq

/-- The fetch direction argument of `fetchMoreMessages` (`"older" | "newer"`). -/
inductive Epoch where
  | older
  | newer
deriving Repr, DecidableEq

/-- Thread state: the fields of the `Thread` record that the message-window
engine reads or writes. `idTruthy` models JS truthiness of `this.id`. -/
structure Thread where
  messages : List Message := []
  allMessages : List Message := []
  transientMessages : List Message := []
  pendingNewMessages : List Message := []
  loadOlder : Bool := false
  loadNewer : Bool := false
  status : Status := Status.new
  isLoaded : Bool := false
  hasLoadingFailed : Bool := false
  model : ThreadModel := ThreadModel.channel
  idTruthy : Bool := true
  selfMember : Option Member := none
  message_needaction_counter : Nat := 0
deriving Repr, DecidableEq

/-- Outcome of the remote paginated read: the raw message list (ordered newest
to oldest, as the transport returns it) or a thrown transport error. -/
inductive FetchOutcome where
  | success (rawMessages : List Message)
  | failure
deriving Repr, DecidableEq

/-- The request object `fetchMessages` sends to the transport
(`{...getFetchParams(), limit, after, around, before}`). -/
structure FetchReq where
  after : Option Rat := none
  around : Option Rat := none
  before : Option Rat := none
  limit : Nat := 0
deriving Repr, DecidableEq

/-- JS truthiness of the optional numeric `around` argument:
`!around` is true when `around` is `undefined` or the number `0`. -/
def jsFalsy (around : Option Rat) : Bool :=
  match around with
  | none => true
  | some q => decide (q = 0)

/-- The page limit `fetchMessages` puts in the request
(thread_model.js:685-686): `!around && around !== 0 ? FETCH_LIMIT : FETCH_LIMIT * 2`. -/
def requestLimit (L : Nat) (around : Option Rat) : Nat :=
  if jsFalsy around = true ∧ around ≠ some 0 then L else 2 * L

/-- The full request `fetchMessages` builds (thread_model.js:683-690). -/
def requestOf (L : Nat) (after around before : Option Rat) : FetchReq :=
  { after := after, around := around, before := before, limit := requestLimit L around }

/-- Getter `oldestPersistentMessage` (thread_model.js:517-519):
first message of the window with `Number.isInteger(msg.id)`. -/
def oldestPersistentMessage (t : Thread) : Option Message :=
  t.messages.find? (fun m => m.id.isInt)

/-- Getter `newestPersistentMessage` (thread_model.js:491-493):
`findLast` of the window with `Number.isInteger(msg.id)`. -/
def newestPersistentMessage (t : Thread) : Option Message :=
  t.messages.reverse.find? (fun m => m.id.isInt)

/-- Getter `persistentMessages` (thread_model.js:557-559):
window messages with a falsy `is_transient`. -/
def persistentMessages (t : Thread) : List Message :=
  t.messages.filter (fun m => !m.is_transient)

/-- Early-return condition of `fetchMessages` (thread_model.js:677):
`!["mail.box", "discuss.channel"].includes(this.model) && !this.id`. -/
def earlyReturnCond (t : Thread) : Bool :=
  (!(decide (t.model = ThreadModel.mailbox) || decide (t.model = ThreadModel.channel)))
  && !t.idTruthy

/-- `async fetchMessages({after, around, before})` (thread_model.js:675-700).
Sets `status = "loading"`, early-returns `[]` for a non-channel/non-mailbox
thread with a falsy id, otherwise performs the remote read (the `interfere`
function is the state mutation other tasks perform while the rpc is awaited),
reverses the raw newest→oldest list, and resets `status = "ready"` in the
`finally` of the try block. A transport error sets `hasLoadingFailed` and is
re-raised (`Except.error`). -/
def fetchMessages (L : Nat) (t0 : Thread) (after around before : Option Rat)
    (rpc : FetchReq → FetchOutcome) (interfere : Thread → Thread) :
    Thread × Except Unit (List Message) :=
  let t := { t0 with status := Status.loading }
  if earlyReturnCond t = true then
    ({ t with isLoaded := true }, Except.ok [])
  else
    let t := interfere t
    match rpc (requestOf L after around before) with
    | FetchOutcome.success rawMessages =>
      ({ t with isLoaded := true, status := Status.ready }, Except.ok rawMessages.reverse)
    | FetchOutcome.failure =>
      ({ t with hasLoadingFailed := true, status := Status.ready }, Except.error ())

/-- Entry guard of `fetchMoreMessages` (thread_model.js:704-710): no-op while
`status === "loading"` or when the requested direction's boundary flag
is already false. -/
def entryGuard (t : Thread) (epoch : Epoch) : Bool :=
  decide (t.status = Status.loading)
  || (decide (epoch = Epoch.older) && !t.loadOlder)
  || (decide (epoch = Epoch.newer) && !t.loadNewer)

/-- Race-abort check of `fetchMoreMessages` (thread_model.js:715-722): the
anchor (`after` and/or `before`) that was captured before the fetch is no
longer present in the (possibly concurrently mutated) window. -/
def anchorMissing (after before : Option Rat) (t1 : Thread) : Bool :=
  (after.isSome && !(t1.messages.any (fun m => decide (some m.id = after))))
  || (before.isSome && !(t1.messages.any (fun m => decide (some m.id = before))))

/-- JS `number < Message-record` (or `number < undefined`): the right operand
coerces through `ToPrimitive`/`Number` to `NaN`, so the comparison is false.
Used for the boundary conditions of `_enrichMessagesWithTransient`
(thread_model.js:1178, 1180), which compare `message.id` against
`this.oldestPersistentMessage` / `this.newestPersistentMessage` — the Message
records themselves, not their ids. -/
def jsLtNumRecord (_q : Rat) (_m : Option Message) : Bool := false

/-- JS `number > Message-record` — `NaN` comparison, false (see `jsLtNumRecord`). -/
def jsGtNumRecord (_q : Rat) (_m : Option Message) : Bool := false

/-- JS `Array.prototype.splice(start, 0, m)` restricted to inserting a single
element: a negative `start` counts from the end (clamped at 0), a `start`
past the end appends. -/
def jsSpliceInsert (l : List α) (start : Int) (m : α) : List α :=
  let len : Int := l.length
  let k : Nat := if start < 0 then (max (len + start) 0).toNat else (min start len).toNat
  l.take k ++ m :: l.drop k

/-- The `afterIndex` computed by the positional branch of
`_enrichMessagesWithTransient` (thread_model.js:1183-1186): `findIndex` of the
first window entry with a strictly greater id, with the not-found `-1`
replaced by `length + 1`. -/
def enrichInsertIdx (t : Thread) (message : Message) : Int :=
  match t.messages.findIdx? (fun msg => decide (message.id < msg.id)) with
  | none => (t.messages.length : Int) + 1
  | some i => (i : Int)

/-- One iteration of the loop body of `_enrichMessagesWithTransient`
(thread_model.js:1177-1189) for a single transient `message`. -/
def enrichOne (t : Thread) (message : Message) : Thread :=
  if jsLtNumRecord message.id (oldestPersistentMessage t) = true ∧ t.loadOlder = false then
    { t with messages := message :: t.messages }
  else if jsGtNumRecord message.id (newestPersistentMessage t) = true ∧ t.loadNewer = false then
    { t with messages := t.messages ++ [message] }
  else
    let afterIndex : Int := enrichInsertIdx t message
    { t with messages := jsSpliceInsert t.messages (afterIndex - 1) message }

/-- `_enrichMessagesWithTransient()` (thread_model.js:1176-1190): re-inserts
every known transient message into the window. -/
def enrichMessagesWithTransient (t : Thread) : Thread :=
  t.transientMessages.foldl enrichOne t

/-- The merge phase of `fetchMoreMessages` after a non-aborted fetch
(thread_model.js:723-746): deduplicate the fetched page against the ids already
in the window, prepend (older) or append (newer), update the boundary flag when
the page was short, drain `pendingNewMessages` on reaching the newer edge, and
re-apply the transient messages. `t1` is the thread state at resume time,
`fetched` the fetched page ordered oldest→newest. -/
def applyFetchedMerge (L : Nat) (epoch : Epoch) (t1 : Thread) (fetched : List Message) : Thread :=
  let alreadyKnownMessages := t1.messages.map Message.id
  let messagesToAdd := fetched.filter (fun m => !(decide (m.id ∈ alreadyKnownMessages)))
  let t2 :=
    if epoch = Epoch.older then { t1 with messages := messagesToAdd ++ t1.messages }
    else { t1 with messages := t1.messages ++ messagesToAdd }
  let t3 :=
    if fetched.length < L then
      if epoch = Epoch.older then { t2 with loadOlder := false }
      else
        let t2n := { t2 with loadNewer := false }
        -- `this.pendingNewMessages` read at line 737; nothing between `t1` and
        -- this point writes it, so it is `t1`'s buffer.
        let missingMessages :=
          t1.pendingNewMessages.filter (fun m => !(decide (m.id ∈ alreadyKnownMessages)))
        if missingMessages.isEmpty then t2n
        else { t2n with
                messages := List.insertionSort (fun m1 m2 => m1.id ≤ m2.id)
                  (t2n.messages ++ missingMessages) }
    else t2
  let t4 := enrichMessagesWithTransient t3
  { t4 with pendingNewMessages := [] }

/-- The `(after, before)` pair `fetchMoreMessages` captures before fetching
(thread_model.js:711-712): `before` is the oldest persisted id for `"older"`,
`after` the newest persisted id for `"newer"`, the other one `undefined`. -/
def anchorsOf (t : Thread) (epoch : Epoch) : Option Rat × Option Rat :=
  (if epoch = Epoch.newer then Option.map Message.id (newestPersistentMessage t) else none,
   if epoch = Epoch.older then Option.map Message.id (oldestPersistentMessage t) else none)

/-- `async fetchMoreMessages(epoch)` (thread_model.js:703-751). The `return`
inside the `try` on the race-abort path (line 721) leaves the function without
running the trailing `this.pendingNewMessages = []` (line 750); a caught
transport error and the success path both reach it. -/
def fetchMoreMessages (L : Nat) (t0 : Thread) (epoch : Epoch)
    (rpc : FetchReq → FetchOutcome) (interfere : Thread → Thread) : Thread :=
  if entryGuard t0 epoch = true then t0
  else
    match fetchMessages L t0 (anchorsOf t0 epoch).1 none (anchorsOf t0 epoch).2 rpc interfere with
    | (t1, Except.error _) => { t1 with pendingNewMessages := [] }
    | (t1, Except.ok fetched) =>
      if anchorMissing (anchorsOf t0 epoch).1 (anchorsOf t0 epoch).2 t1 = true then t1
      else applyFetchedMerge L epoch t1 fetched

/-- The anchor `fetchNewMessages` captures (thread_model.js:760):
newest persisted id when the thread is already loaded, else `undefined`. -/
def fetchNewAnchor (t : Thread) : Option Rat :=
  if t.isLoaded = true then Option.map Message.id (newestPersistentMessage t) else none

/-- The range part of the feed filter of `fetchNewMessages`
(thread_model.js:783-785): keep a message when no persistent message is in the
window, or when its id falls outside the already-covered persisted range. -/
def newRangeCond (t1 : Thread) (m : Message) : Bool :=
  decide ((persistentMessages t1).length = 0)
  || (match oldestPersistentMessage t1 with
      | some o => decide (m.id < o.id)
      | none => false)
  || (match newestPersistentMessage t1 with
      | some n => decide (n.id < m.id)
      | none => false)

/-- The feed phase of `fetchNewMessages` after the fetch returned
(thread_model.js:763-795): locate the insertion index after the anchor
(aborting when the anchor vanished), filter the fetched page against known ids
and against the already-covered persisted range, splice it in, and update
`loadOlder` for unanchored loads. Note that the range filter reads
`this.oldestPersistentMessage.id` / `this.newestPersistentMessage.id`
(lines 784-785); it is only evaluated when `persistentMessages` is nonempty,
and the embedding reads the id through the option. -/
def applyNewMerge (L : Nat) (after : Option Rat) (t1 : Thread) (fetched : List Message) :
    Thread :=
  let startIndexOpt : Option Nat :=
    match after with
    | none => some 0
    | some a =>
      match t1.messages.findIdx? (fun m => decide (m.id = a)) with
      | none => none
      | some afterIndex => some (afterIndex + 1)
  match startIndexOpt with
  | none => t1
  | some startIndex =>
    let alreadyKnownMessages := t1.messages.map Message.id
    let filtered := fetched.filter (fun m =>
      !(decide (m.id ∈ alreadyKnownMessages)) && newRangeCond t1 m)
    let t2 := { t1 with
      messages := t1.messages.take startIndex ++ filtered ++ t1.messages.drop startIndex }
    { t2 with loadOlder :=
        if after = none ∧ fetched.length = L then true
        else if after = none ∧ fetched.length ≠ L then false
        else t2.loadOlder }

/-- `async fetchNewMessages()` (thread_model.js:753-799). -/
def fetchNewMessages (L : Nat) (t0 : Thread)
    (rpc : FetchReq → FetchOutcome) (interfere : Thread → Thread) : Thread :=
  if t0.status = Status.loading
     ∨ (t0.isLoaded = true ∧ (t0.model = ThreadModel.channel ∨ t0.model = ThreadModel.mailbox)) then
    t0
  else
    match fetchMessages L t0 (fetchNewAnchor t0) none none rpc interfere with
    | (t1, Except.error _) => t1
    | (t1, Except.ok fetched) => applyNewMerge L (fetchNewAnchor t0) t1 fetched

/-- Modelled from the spec: `RecordList.add` of the record framework (the
framework file is not part of the sample) — a set-like add, "just add the
confirmed message": appends the message when it is not already in the window. -/
def recordListAdd (t : Thread) (message : Message) : Thread :=
  if message ∈ t.messages then t else { t with messages := t.messages ++ [message] }

/-- JS `Array.prototype.indexOf`: index of the first equal element. -/
def jsIndexOf (l : List Message) (a : Message) : Nat :=
  l.findIdx (fun m => decide (m = a))

/-- `addOrReplaceMessage(message, tmpMsg)` (thread_model.js:1032-1039): when the
temporary message is still in the window and the confirmed author is self,
`splice(indexOf(tmpMsg), 1, message)` replaces it in place; otherwise
`messages.add(message)`. -/
def addOrReplaceMessage (t : Thread) (message : Message) (tmpMsg : Option Message) : Thread :=
  match tmpMsg with
  | some tmp =>
    if tmp ∈ t.messages ∧ message.authorIsSelf = true then
      let i := jsIndexOf t.messages tmp
      { t with messages := t.messages.take i ++ message :: t.messages.drop (i + 1) }
    else recordListAdd t message
  | none => recordListAdd t message

/-- Computed list `newestPersistentAllMessages` (thread_model.js:495-503):
all messages of the thread with integer ids, sorted newest first. -/
def newestPersistentAllMessages (t : Thread) : List Message :=
  List.insertionSort (fun m1 m2 => m2.id ≤ m1.id)
    (t.allMessages.filter (fun m => m.id.isInt))

/-- Computed field `newestPersistentOfAllMessage` (thread_model.js:505-509). -/
def newestPersistentOfAllMessage (t : Thread) : Option Message :=
  (newestPersistentAllMessages t).head?

/-- What a `markAsRead` call did: the resulting thread state, whether the
deferred retry was scheduled (line 896), whether the
`/discuss/channel/mark_as_read` rpc was issued (lines 903-912), and whether the
bulk `markAllMessagesAsRead` was issued (lines 914-916). -/
structure MarkAsReadOutcome where
  thread : Thread
  scheduledRetry : Bool
  sentMarkAsReadRpc : Bool
  sentMarkAllRead : Bool
deriving Repr, DecidableEq

/-- `markAsRead({sync})` (thread_model.js:893-917). There is no early return:
after scheduling the deferred retry the function falls through and, when a self
member exists, still assigns `seen_message_id = newestPersistentMessage`
(line 901) — even when that value is `undefined`. -/
def markAsRead (t : Thread) (sync : Option Bool) : MarkAsReadOutcome :=
  let newestPersistentMessage := newestPersistentOfAllMessage t
  let scheduledRetry : Bool :=
    decide (newestPersistentMessage = none) && !t.isLoaded
  let alreadyReadBySelf : Bool :=
    (Option.map Message.isReadBySelf newestPersistentMessage).getD false
  let t1 :=
    match t.selfMember with
    | some sm =>
      { t with selfMember := some { sm with
          syncUnread := sync.getD sm.syncUnread,
          seen_message_id := newestPersistentMessage } }
    | none => t
  let sentRpc : Bool :=
    decide (newestPersistentMessage ≠ none) && decide (t1.selfMember ≠ none)
      && !alreadyReadBySelf
  let sentAll : Bool := decide (t1.message_needaction_counter > 0)
  { thread := t1, scheduledRetry := scheduledRetry,
    sentMarkAsReadRpc := sentRpc, sentMarkAllRead := sentAll }

/-- The ids of a message list. -/
def idsOf (l : List Message) : List Rat := l.map Message.id

/-- The persisted (integer) ids of a message list, in list order. -/
def pids (l : List Message) : List Rat :=
  (l.filter (fun m => m.id.isInt)).map Message.id

/-- The thread state at the moment a caller of `fetchMessages` resumes after a
successful fetch: status was set to `"loading"`, concurrent tasks ran during
the rpc (`interfere`), then `isLoaded := true` and the `finally` reset
`status := "ready"`. -/
def resumeSuccess (t0 : Thread) (interfere : Thread → Thread) : Thread :=
  { interfere { t0 with status := Status.loading } with
      isLoaded := true, status := Status.ready }

/-- The thread state at the moment a caller of `fetchMessages` resumes after a
failed fetch: as `resumeSuccess` but with the sticky `hasLoadingFailed` flag. -/
def resumeFailure (t0 : Thread) (interfere : Thread → Thread) : Thread :=
  { interfere { t0 with status := Status.loading } with
      hasLoadingFailed := true, status := Status.ready }

/-- The pagination anchor `fetchMoreMessages` captures before fetching:
oldest persisted id for `"older"`, newest persisted id for `"newer"`. -/
def anchorOf (t : Thread) (epoch : Epoch) : Option Rat :=
  match epoch with
  | Epoch.older => Option.map Message.id (oldestPersistentMessage t)
  | Epoch.newer => Option.map Message.id (newestPersistentMessage t)

/-- The boundary flag of a direction: `loadOlder` for `"older"`,
`loadNewer` for `"newer"`. -/
def flagOf (t : Thread) (epoch : Epoch) : Bool :=
  match epoch with
  | Epoch.older => t.loadOlder
  | Epoch.newer => t.loadNewer

/-- A message holding just a persisted id, as returned by the remote log. -/
def msgOf (q : Rat) : Message := { id := q }

/-- The last `n` elements of a list. -/
def takeLastN (n : Nat) (l : List α) : List α := l.drop (l.length - n)

/-- The page of ids the remote log serves for a request, in ascending order:
for `before` the newest `limit` ids below the anchor, for `after` the oldest
`limit` ids above the anchor, with no anchor the newest `limit` ids. -/
def serverChunk (log : List Rat) (limit : Nat) (after before : Option Rat) : List Rat :=
  match before, after with
  | some b, _ => takeLastN limit (log.filter (fun q => decide (q < b)))
  | none, some a => (log.filter (fun q => decide (a < q))).take limit
  | none, none => takeLastN limit log

/-- A transport backed by a fixed remote log: always succeeds and returns the
served page ordered newest→oldest (the order the code expects raw responses
in). -/
def serverRpc (log : List Rat) : FetchReq → FetchOutcome :=
  fun req =>
    FetchOutcome.success (((serverChunk log req.limit req.after req.before).map msgOf).reverse)

/-- One `fetchMoreMessages` call against the fixed remote log, with no
concurrent mutation of the thread. -/
def stepFetchMore (log : List Rat) (L : Nat) (t : Thread) (epoch : Epoch) : Thread :=
  fetchMoreMessages L t epoch (serverRpc log) id

/-- A sequence of `fetchMoreMessages("older")`/`("newer")` calls against the
fixed remote log, with no concurrent mutation of the thread. -/
def runSeq (log : List Rat) (L : Nat) : Thread → List Epoch → Thread
  | t, [] => t
  | t, e :: es => runSeq log L (stepFetchMore log L t e) es

/-- Well-formedness of the remote log: strictly ascending integer ids. -/
def LogOk (log : List Rat) : Prop :=
  log.Pairwise (fun a b => a < b) ∧ ∀ q ∈ log, q.isInt = true

/-- The window invariant of the message list (thread_model.js:234-243):
its persisted ids all come from the log, are strictly ascending, and form a
contiguous range of the log (no holes between any two of them). -/
def WindowInv (log : List Rat) (t : Thread) : Prop :=
  (∀ q ∈ pids t.messages, q ∈ log)
  ∧ (pids t.messages).Pairwise (fun a b => a < b)
  ∧ (∀ q ∈ log, (∃ lo ∈ pids t.messages, lo ≤ q) → (∃ hi ∈ pids t.messages, q ≤ hi) →
      q ∈ pids t.messages)

/-- Side conditions for the contiguity argument: no buffered push messages, all
transient messages carry non-integer ids, and the thread is of a kind (or has
an id) that actually fetches. -/
def SideInv (t : Thread) : Prop :=
  t.pendingNewMessages = []
  ∧ (∀ m ∈ t.transientMessages, m.id.isInt = false)
  ∧ earlyReturnCond t = false

/-- Sample thread for the C2 witness: an ordinary channel thread. -/
def thW2 : Thread := {}

/-- Sample data for the C9 witness. -/
def tmpW9 : Message := { id := mkRat 101 10, authorIsSelf := true }

def msgW9 : Message := { id := 501, authorIsSelf := true }

def thW9 : Thread := { messages := [tmpW9, { id := 3 }] }

/-- Sample thread for the C10 witness and counterexample: not loaded, no
messages known, self member points at message 5. -/
def thW10 : Thread := { isLoaded := false, selfMember := some { seen_message_id := some { id := 5 } } }

/-- Sample thread for the C3 witness: a loaded window `[2]` with an older
boundary. -/
def tW3 : Thread := { messages := [{ id := 2 }], loadOlder := true, status := Status.ready }

/-- A concurrent mutation that replaces the window with the empty one (a
jump-to-message during the rpc). -/
def wipeWindow : Thread → Thread := fun t => { t with messages := [] }

/-- Sample thread for the C4 counterexample and witness: window `[2]`, older
boundary open, one buffered push message (id 9). -/
def tW4 : Thread := { messages := [{ id := 2 }], loadOlder := true, status := Status.ready,
                      pendingNewMessages := [{ id := 9 }] }

/-- Sample thread for the C8 witness. -/
def tW8 : Thread := { messages := [{ id := 5 }], loadOlder := true, status := Status.ready }

/-- Sample thread for C5: window `[1]`, newer boundary open, and the message
with id 3 both buffered in `pendingNewMessages` and about to be fetched. -/
def tW5 : Thread := { messages := [{ id := 1 }], loadNewer := true, status := Status.ready,
                      isLoaded := true, pendingNewMessages := [{ id := 3 }] }

/-- Sample thread for the C5 witness. -/
def tW5b : Thread := { messages := [{ id := 1 }, { id := 2 }], loadNewer := true,
                       status := Status.ready, isLoaded := true }

/-- Sample thread for the C5 witness (`fetchNewMessages` part): not yet
loaded, so the unanchored feed path runs. -/
def tW5c : Thread := { messages := [{ id := 1 }], status := Status.ready, isLoaded := false }

/-- Sample remote log for the C1 witness. -/
def log5 : List Rat := [1, 2, 3, 4, 5]

/-- Sample thread for the C1 witness: loaded window `[4, 5]` with the older
boundary open. -/
def tW1 : Thread := { messages := [{ id := 4 }, { id := 5 }], loadOlder := true,
                      status := Status.ready, isLoaded := true }

/-! ## Basic lemmas about `fetchMessages` -/

theorem fetchMessages_early (L : Nat) (t0 : Thread) (after around before : Option Rat)
    (rpc : FetchReq → FetchOutcome) (interfere : Thread → Thread)
    (h : earlyReturnCond t0 = true) :
    fetchMessages L t0 after around before rpc interfere
      = ({ t0 with status := Status.loading, isLoaded := true }, Except.ok []) := by
  have h' : earlyReturnCond { t0 with status := Status.loading } = true := h
  unfold fetchMessages
  simp [h']

theorem fetchMessages_ok (L : Nat) (t0 : Thread) (after around before : Option Rat)
    (raw : List Message) (rpc : FetchReq → FetchOutcome) (interfere : Thread → Thread)
    (hne : earlyReturnCond t0 = false)
    (hrpc : rpc (requestOf L after around before) = FetchOutcome.success raw) :
    fetchMessages L t0 after around before rpc interfere
      = (resumeSuccess t0 interfere, Except.ok raw.reverse) := by
  have h' : earlyReturnCond { t0 with status := Status.loading } = false := hne
  unfold fetchMessages resumeSuccess
  simp [h', hrpc]

theorem fetchMessages_err (L : Nat) (t0 : Thread) (after around before : Option Rat)
    (rpc : FetchReq → FetchOutcome) (interfere : Thread → Thread)
    (hne : earlyReturnCond t0 = false)
    (hrpc : rpc (requestOf L after around before) = FetchOutcome.failure) :
    fetchMessages L t0 after around before rpc interfere
      = (resumeFailure t0 interfere, Except.error ()) := by
  have h' : earlyReturnCond { t0 with status := Status.loading } = false := hne
  unfold fetchMessages resumeFailure
  simp [h', hrpc]

theorem recordListAdd_mem (t : Thread) (message : Message) :
    (∀ x ∈ t.messages, x ∈ (recordListAdd t message).messages)
    ∧ message ∈ (recordListAdd t message).messages := by
  unfold recordListAdd
  by_cases h : message ∈ t.messages <;> simp [h]
  intro x hx
  exact Or.inl hx

/-! ## C2 -/

/-- C2, counterexample: for a thread that is neither a channel nor a mailbox
and has a falsy id, `fetchMessages` exits through the early return before the
`try`/`finally`, leaving `status = "loading"`, not `"ready"`. This refutes the
claim that every exit path leaves status `"ready"`. -/
theorem c2_counterexample :
    (fetchMessages 30 { model := ThreadModel.other, idTruthy := false } none none none
        (fun _ => FetchOutcome.success []) id).1.status = Status.loading
    ∧ Status.loading ≠ Status.ready := by
  constructor
  · rfl
  · decide

/-- C2, amended: `fetchMessages` sets status `"loading"` on entry; on both
exits of the `try` block (success and transport failure) the `finally` resets
status to `"ready"`, but the early validation return (non-channel, non-mailbox
model with falsy id) exits with status still `"loading"`. -/
theorem c2_amended (L : Nat) (t0 : Thread) (after around before : Option Rat)
    (rpc : FetchReq → FetchOutcome) (interfere : Thread → Thread) :
    (earlyReturnCond t0 = true →
      (fetchMessages L t0 after around before rpc interfere).1.status = Status.loading)
    ∧ (earlyReturnCond t0 = false →
      (fetchMessages L t0 after around before rpc interfere).1.status = Status.ready) := by
  constructor
  · intro h
    rw [fetchMessages_early L t0 after around before rpc interfere h]
  · intro h
    cases hrpc : rpc (requestOf L after around before) with
    | success raw =>
      rw [fetchMessages_ok L t0 after around before raw rpc interfere h hrpc]
      rfl
    | failure =>
      rw [fetchMessages_err L t0 after around before rpc interfere h hrpc]
      rfl

theorem c2_witness :
    earlyReturnCond thW2 = false
    ∧ (fetchMessages 30 thW2 none none none (fun _ => FetchOutcome.success []) id).1.status
        = Status.ready :=
  ⟨by decide,
   (c2_amended 30 thW2 none none none (fun _ => FetchOutcome.success []) id).2 (by decide)⟩

/-! ## C7 -/

/-- C7, counterexample: an anchorless fetch (no `after`, `before` or `around`)
requests limit `L`, not `2×L` — refuting the claim's assertion that an
unspecified anchor yields a `2×L` limit. -/
theorem c7_counterexample :
    (requestOf 30 none none none).limit = 30 ∧ (30 : Nat) ≠ 2 * 30 := by
  constructor
  · rfl
  · decide

/-- C7, amended: the requested page limit is `L` for `after`, `before` and
anchorless fetches, and `2×L` exactly when an `around` anchor is supplied
(any numeric id, including 0). -/
theorem c7_amended (L : Nat) (after before : Option Rat) :
    (requestOf L after none before).limit = L
    ∧ ∀ q : Rat, (requestOf L after (some q) before).limit = 2 * L := by
  constructor
  · simp [requestOf, requestLimit, jsFalsy]
  · intro q
    by_cases h : q = 0 <;> simp [requestOf, requestLimit, jsFalsy, h]

/-! ## C6 -/

/-- C6: evaluation of `_enrichMessagesWithTransient` at the failing input.
Window `[2, 10]` with `loadOlder = false`, transient message with id `3/2`:
the claim requires prepending (`[3/2, 2, 10]`), but the code compares the id
against the `oldestPersistentMessage` record itself (a `NaN` comparison, always
false) and then inserts at (first-strictly-greater index − 1), yielding
`[2, 3/2, 10]`. -/
theorem c6_bug :
    (enrichMessagesWithTransient
        { messages := [{ id := 2 }, { id := 10 }], loadOlder := false, loadNewer := true,
          transientMessages := [{ id := mkRat 3 2, is_transient := true }] }).messages
      = [{ id := 2 }, { id := mkRat 3 2, is_transient := true }, { id := 10 }]
    ∧ ([{ id := 2 }, { id := mkRat 3 2, is_transient := true }, { id := 10 }] : List Message)
      ≠ [{ id := mkRat 3 2, is_transient := true }, { id := 2 }, { id := 10 }] := by
  constructor
  · rfl
  · decide

/-! ## C9 -/

/-- C9: when the temporary message is still in the window and the confirmed
message's author is self, `addOrReplaceMessage` replaces the temporary message
in place at its window index (`List.set` at `indexOf tmpMsg`); otherwise it
adds the confirmed message without removing any window entry (in particular
without replacing the temporary message). -/
theorem c9_optimistic_replace (t : Thread) (message tmp : Message) (tmpOpt : Option Message) :
    (tmp ∈ t.messages → message.authorIsSelf = true →
      (addOrReplaceMessage t message (some tmp)).messages
        = t.messages.set (jsIndexOf t.messages tmp) message)
    ∧ (¬ (∃ x ∈ tmpOpt, x ∈ t.messages ∧ message.authorIsSelf = true) →
      (∀ x ∈ t.messages, x ∈ (addOrReplaceMessage t message tmpOpt).messages)
      ∧ message ∈ (addOrReplaceMessage t message tmpOpt).messages) := by
  constructor
  · intro h1 h2
    simp only [addOrReplaceMessage]
    rw [if_pos ⟨h1, h2⟩]
    have hlt : jsIndexOf t.messages tmp < t.messages.length := by
      unfold jsIndexOf
      rw [List.findIdx_lt_length]
      exact ⟨tmp, h1, by simp⟩
    simp [List.set_eq_take_append_cons_drop, hlt, jsIndexOf, h1]
  · intro h
    cases tmpOpt with
    | none => exact recordListAdd_mem t message
    | some tmp2 =>
      have hneg : ¬ (tmp2 ∈ t.messages ∧ message.authorIsSelf = true) := by
        intro hc
        exact h ⟨tmp2, by simp, hc⟩
      simp only [addOrReplaceMessage]
      rw [if_neg hneg]
      exact recordListAdd_mem t message

theorem c9_witness :
    tmpW9 ∈ thW9.messages ∧ msgW9.authorIsSelf = true
    ∧ (addOrReplaceMessage thW9 msgW9 (some tmpW9)).messages
        = thW9.messages.set (jsIndexOf thW9.messages tmpW9) msgW9 :=
  ⟨by decide, by decide,
   (c9_optimistic_replace thW9 msgW9 tmpW9 (some tmpW9)).1 (by decide) (by decide)⟩

/-! ## C10 -/

/-- C10, counterexample: calling `markAsRead` on a thread that is not loaded
and has no known persisted message schedules the deferred retry but does NOT
stop: it still overwrites the self member's seen pointer with the absent
newest persisted message, clearing it — the claim says no seen-pointer update
is performed in the current call. -/
theorem c10_counterexample :
    (markAsRead thW10 none).scheduledRetry = true
    ∧ Option.map Member.seen_message_id thW10.selfMember = some (some { id := 5 })
    ∧ Option.map Member.seen_message_id (markAsRead thW10 none).thread.selfMember
        = some none := by
  refine ⟨rfl, rfl, rfl⟩

/-- C10, amended: when the window is not loaded and no newest persisted message
is known, `markAsRead` schedules the deferred retry and issues no
mark-as-read rpc in the current call, but it does not defer the seen-pointer
update: whenever a self member exists, its seen pointer is set (in the same
call) to the current newest persisted message — which is absent in the
deferred case, so the pointer is cleared rather than left untouched. -/
theorem c10_amended (t : Thread) (sync : Option Bool) :
    (newestPersistentOfAllMessage t = none → t.isLoaded = false →
      (markAsRead t sync).scheduledRetry = true
      ∧ (markAsRead t sync).sentMarkAsReadRpc = false)
    ∧ (∀ sm, t.selfMember = some sm →
      (markAsRead t sync).thread.selfMember
        = some { sm with syncUnread := sync.getD sm.syncUnread,
                         seen_message_id := newestPersistentOfAllMessage t }) := by
  constructor
  · intro h1 h2
    unfold markAsRead
    cases hsm : t.selfMember <;> simp [h1, h2, hsm]
  · intro sm hsm
    unfold markAsRead
    simp [hsm]

theorem c10_witness :
    (newestPersistentOfAllMessage thW10 = none ∧ thW10.isLoaded = false)
    ∧ ((markAsRead thW10 none).scheduledRetry = true
        ∧ (markAsRead thW10 none).sentMarkAsReadRpc = false)
    ∧ (markAsRead thW10 none).thread.selfMember
        = some { seen_message_id := none, syncUnread := false } :=
  ⟨⟨by decide, by decide⟩,
   (c10_amended thW10 none).1 (by decide) (by decide),
   ((c10_amended thW10 none).2 { seen_message_id := some { id := 5 } } (by decide)).trans
     (by decide)⟩

/-! ## Shape lemmas for `fetchMoreMessages` -/

theorem fetchMoreMessages_guard (L : Nat) (t0 : Thread) (epoch : Epoch)
    (rpc : FetchReq → FetchOutcome) (interfere : Thread → Thread)
    (hg : entryGuard t0 epoch = true) :
    fetchMoreMessages L t0 epoch rpc interfere = t0 := by
  unfold fetchMoreMessages
  rw [if_pos hg]

theorem fetchMoreMessages_failure_shape (L : Nat) (t0 : Thread) (epoch : Epoch)
    (interfere : Thread → Thread)
    (hg : entryGuard t0 epoch = false) (hne : earlyReturnCond t0 = false) :
    fetchMoreMessages L t0 epoch (fun _ => FetchOutcome.failure) interfere
      = { resumeFailure t0 interfere with pendingNewMessages := [] } := by
  unfold fetchMoreMessages
  rw [if_neg (by simp [hg]),
      fetchMessages_err L t0 (anchorsOf t0 epoch).1 none (anchorsOf t0 epoch).2 _ interfere hne rfl]

theorem fetchMoreMessages_success_shape (L : Nat) (t0 : Thread) (epoch : Epoch)
    (raw : List Message) (interfere : Thread → Thread)
    (hg : entryGuard t0 epoch = false) (hne : earlyReturnCond t0 = false) :
    fetchMoreMessages L t0 epoch (fun _ => FetchOutcome.success raw) interfere
      = (if anchorMissing (anchorsOf t0 epoch).1 (anchorsOf t0 epoch).2
              (resumeSuccess t0 interfere) = true
         then resumeSuccess t0 interfere
         else applyFetchedMerge L epoch (resumeSuccess t0 interfere) raw.reverse) := by
  unfold fetchMoreMessages
  rw [if_neg (by simp [hg]),
      fetchMessages_ok L t0 (anchorsOf t0 epoch).1 none (anchorsOf t0 epoch).2 raw _ interfere
        hne rfl]

theorem resumeSuccess_id_messages (t0 : Thread) :
    (resumeSuccess t0 id).messages = t0.messages := rfl

theorem anchorMissing_false_id (t0 : Thread) (epoch : Epoch) :
    anchorMissing (anchorsOf t0 epoch).1 (anchorsOf t0 epoch).2 (resumeSuccess t0 id) = false := by
  cases epoch with
  | older =>
    cases hm : oldestPersistentMessage t0 with
    | none => simp [anchorsOf, anchorMissing, hm, resumeSuccess_id_messages]
    | some m =>
      have hmem : m ∈ t0.messages := List.mem_of_find?_eq_some hm
      simp [anchorsOf, anchorMissing, hm, resumeSuccess_id_messages, List.any_eq_true]
      exact ⟨m, hmem, rfl⟩
  | newer =>
    cases hm : newestPersistentMessage t0 with
    | none => simp [anchorsOf, anchorMissing, hm, resumeSuccess_id_messages]
    | some m =>
      have hmem : m ∈ t0.messages := by
        have := List.mem_of_find?_eq_some hm
        exact List.mem_reverse.mp this
      simp [anchorsOf, anchorMissing, hm, resumeSuccess_id_messages, List.any_eq_true]
      exact ⟨m, hmem, rfl⟩

/-! ## C3 -/

/-- C3: if, at the moment `fetchMoreMessages` resumes from its remote fetch,
the captured anchor id is no longer present in the (concurrently mutated)
window, then the call returns the resume-time state unchanged: no fetched
message is inserted and neither boundary flag (nor anything else) is
modified by that call. -/
theorem c3_race_abort (L : Nat) (t0 : Thread) (epoch : Epoch) (raw : List Message)
    (interfere : Thread → Thread) (b : Rat)
    (hg : entryGuard t0 epoch = false) (hne : earlyReturnCond t0 = false)
    (hb : anchorOf t0 epoch = some b)
    (hmiss : ∀ m ∈ (resumeSuccess t0 interfere).messages, m.id ≠ b) :
    fetchMoreMessages L t0 epoch (fun _ => FetchOutcome.success raw) interfere
      = resumeSuccess t0 interfere := by
  rw [fetchMoreMessages_success_shape L t0 epoch raw interfere hg hne]
  have hmissing : anchorMissing (anchorsOf t0 epoch).1 (anchorsOf t0 epoch).2
      (resumeSuccess t0 interfere) = true := by
    cases epoch with
    | older =>
      have hb' : Option.map Message.id (oldestPersistentMessage t0) = some b := hb
      simp [anchorsOf, anchorMissing, hb', List.any_eq_true]
      intro m hm hmid
      exact hmiss m hm hmid
    | newer =>
      have hb' : Option.map Message.id (newestPersistentMessage t0) = some b := hb
      simp [anchorsOf, anchorMissing, hb', List.any_eq_true]
      intro m hm hmid
      exact hmiss m hm hmid
  rw [if_pos hmissing]

theorem c3_witness :
    (entryGuard tW3 Epoch.older = false ∧ earlyReturnCond tW3 = false
      ∧ anchorOf tW3 Epoch.older = some 2
      ∧ (∀ m ∈ (resumeSuccess tW3 wipeWindow).messages, m.id ≠ 2))
    ∧ fetchMoreMessages 30 tW3 Epoch.older (fun _ => FetchOutcome.success [{ id := 1 }])
        wipeWindow
      = resumeSuccess tW3 wipeWindow :=
  ⟨⟨by decide, by decide, by decide, by decide⟩,
   c3_race_abort 30 tW3 Epoch.older [{ id := 1 }] wipeWindow 2
     (by decide) (by decide) (by decide) (by decide)⟩

/-! ## C4 -/

/-- C4, counterexample: a race-aborted `fetchMoreMessages` call that passed the
entry guards completes with a non-empty `pendingNewMessages` buffer — the
abort `return` at thread_model.js:721 skips the clearing at line 750, refuting
the claim that the buffer is empty on completion regardless of outcome. -/
theorem c4_counterexample :
    entryGuard tW4 Epoch.older = false
    ∧ (fetchMoreMessages 30 tW4 Epoch.older (fun _ => FetchOutcome.success [{ id := 1 }])
        wipeWindow).pendingNewMessages = [{ id := 9 }]
    ∧ ([{ id := 9 }] : List Message) ≠ [] := by
  refine ⟨by decide, by decide, by decide⟩

/-- C4, amended: for a `fetchMoreMessages` call that passes the entry guards,
the `pendingNewMessages` buffer is empty on completion after a transport
failure and after a successful non-aborted merge; the race-abort path alone
returns without clearing the buffer. -/
theorem c4_amended (L : Nat) (t0 : Thread) (epoch : Epoch) (raw : List Message)
    (interfere : Thread → Thread)
    (hg : entryGuard t0 epoch = false) (hne : earlyReturnCond t0 = false) :
    (fetchMoreMessages L t0 epoch (fun _ => FetchOutcome.failure) interfere).pendingNewMessages
        = []
    ∧ (anchorMissing (anchorsOf t0 epoch).1 (anchorsOf t0 epoch).2
          (resumeSuccess t0 interfere) = false →
       (fetchMoreMessages L t0 epoch (fun _ => FetchOutcome.success raw)
          interfere).pendingNewMessages = []) := by
  constructor
  · rw [fetchMoreMessages_failure_shape L t0 epoch interfere hg hne]
  · intro h
    rw [fetchMoreMessages_success_shape L t0 epoch raw interfere hg hne, if_neg (by simp [h])]
    rfl

theorem c4_witness :
    (entryGuard tW4 Epoch.older = false ∧ earlyReturnCond tW4 = false)
    ∧ (fetchMoreMessages 30 tW4 Epoch.older (fun _ => FetchOutcome.failure) id).pendingNewMessages
        = [] :=
  ⟨⟨by decide, by decide⟩,
   (c4_amended 30 tW4 Epoch.older [] id (by decide) (by decide)).1⟩

/-! ## Field-preservation lemmas for the transient merger -/

theorem enrichOne_eq_splice (t : Thread) (m : Message) :
    enrichOne t m
      = { t with messages := jsSpliceInsert t.messages (enrichInsertIdx t m - 1) m } := by
  unfold enrichOne
  simp [jsLtNumRecord, jsGtNumRecord]

theorem foldl_enrichOne_proj {α : Type} (f : Thread → α)
    (hf : ∀ t m, f (enrichOne t m) = f t) :
    ∀ (l : List Message) (t : Thread), f (l.foldl enrichOne t) = f t := by
  intro l
  induction l with
  | nil => intro t; rfl
  | cons m l ih =>
    intro t
    rw [List.foldl_cons, ih, hf]

theorem enrich_loadOlder (t : Thread) :
    (enrichMessagesWithTransient t).loadOlder = t.loadOlder :=
  foldl_enrichOne_proj (fun u => u.loadOlder)
    (fun u m => by rw [enrichOne_eq_splice]) t.transientMessages t

theorem enrich_loadNewer (t : Thread) :
    (enrichMessagesWithTransient t).loadNewer = t.loadNewer :=
  foldl_enrichOne_proj (fun u => u.loadNewer)
    (fun u m => by rw [enrichOne_eq_splice]) t.transientMessages t

theorem enrich_pendingNewMessages (t : Thread) :
    (enrichMessagesWithTransient t).pendingNewMessages = t.pendingNewMessages :=
  foldl_enrichOne_proj (fun u => u.pendingNewMessages)
    (fun u m => by rw [enrichOne_eq_splice]) t.transientMessages t

theorem enrich_transientMessages (t : Thread) :
    (enrichMessagesWithTransient t).transientMessages = t.transientMessages :=
  foldl_enrichOne_proj (fun u => u.transientMessages)
    (fun u m => by rw [enrichOne_eq_splice]) t.transientMessages t

theorem enrich_model (t : Thread) :
    (enrichMessagesWithTransient t).model = t.model :=
  foldl_enrichOne_proj (fun u => u.model)
    (fun u m => by rw [enrichOne_eq_splice]) t.transientMessages t

theorem enrich_idTruthy (t : Thread) :
    (enrichMessagesWithTransient t).idTruthy = t.idTruthy :=
  foldl_enrichOne_proj (fun u => u.idTruthy)
    (fun u m => by rw [enrichOne_eq_splice]) t.transientMessages t

theorem enrich_status (t : Thread) :
    (enrichMessagesWithTransient t).status = t.status :=
  foldl_enrichOne_proj (fun u => u.status)
    (fun u m => by rw [enrichOne_eq_splice]) t.transientMessages t

/-! ## Boundary-flag behaviour of the merge -/

theorem applyFetchedMerge_loadOlder (L : Nat) (t1 : Thread) (fetched : List Message) :
    (applyFetchedMerge L Epoch.older t1 fetched).loadOlder
      = if fetched.length < L then false else t1.loadOlder := by
  unfold applyFetchedMerge
  by_cases hlen : fetched.length < L <;> simp [hlen, enrich_loadOlder]

theorem applyFetchedMerge_loadNewer (L : Nat) (t1 : Thread) (fetched : List Message) :
    (applyFetchedMerge L Epoch.newer t1 fetched).loadNewer
      = if fetched.length < L then false else t1.loadNewer := by
  unfold applyFetchedMerge
  by_cases hlen : fetched.length < L <;> simp [hlen, enrich_loadNewer]
  split <;> simp [enrich_loadNewer]

theorem entryGuard_false_flagOf {t : Thread} {epoch : Epoch}
    (hg : entryGuard t epoch = false) : flagOf t epoch = true := by
  cases epoch <;> simp [entryGuard, flagOf] at hg ⊢ <;> tauto

/-! ## C8 -/

/-- C8: after a `fetchMoreMessages` call that passes the entry guards and runs
with no concurrent mutation (so the merge is not race-aborted), the boundary
flag of the requested direction is false iff the fetch returned strictly fewer
than `L` messages; with exactly `L` messages the flag stays true. -/
theorem c8_boundary (L : Nat) (t0 : Thread) (epoch : Epoch) (raw : List Message)
    (hg : entryGuard t0 epoch = false) (hne : earlyReturnCond t0 = false) :
    flagOf (fetchMoreMessages L t0 epoch (fun _ => FetchOutcome.success raw) id) epoch = false
      ↔ raw.length < L := by
  rw [fetchMoreMessages_success_shape L t0 epoch raw id hg hne,
      if_neg (by simp [anchorMissing_false_id t0 epoch])]
  have hflag : flagOf t0 epoch = true := entryGuard_false_flagOf hg
  have hres : flagOf (resumeSuccess t0 id) epoch = flagOf t0 epoch := by
    cases epoch <;> rfl
  cases epoch with
  | older =>
    show (applyFetchedMerge L Epoch.older (resumeSuccess t0 id) raw.reverse).loadOlder = false
      ↔ raw.length < L
    rw [applyFetchedMerge_loadOlder, List.length_reverse]
    by_cases hlen : raw.length < L
    · simp [hlen]
    · have : (resumeSuccess t0 id).loadOlder = true := by
        have := hres.trans hflag
        exact this
      simp [hlen, this]
  | newer =>
    show (applyFetchedMerge L Epoch.newer (resumeSuccess t0 id) raw.reverse).loadNewer = false
      ↔ raw.length < L
    rw [applyFetchedMerge_loadNewer, List.length_reverse]
    by_cases hlen : raw.length < L
    · simp [hlen]
    · have : (resumeSuccess t0 id).loadNewer = true := by
        have := hres.trans hflag
        exact this
      simp [hlen, this]

theorem c8_witness :
    (entryGuard tW8 Epoch.older = false ∧ earlyReturnCond tW8 = false)
    ∧ (flagOf (fetchMoreMessages 30 tW8 Epoch.older
          (fun _ => FetchOutcome.success [{ id := 4 }]) id) Epoch.older = false
        ↔ ([{ id := 4 }] : List Message).length < 30) :=
  ⟨⟨by decide, by decide⟩,
   c8_boundary 30 tW8 Epoch.older [{ id := 4 }] (by decide) (by decide)⟩

/-! ## Id-list helpers -/

theorem idsOf_append (A B : List Message) : idsOf (A ++ B) = idsOf A ++ idsOf B :=
  List.map_append _ _ _

theorem mem_idsOf {q : Rat} {l : List Message} : q ∈ idsOf l ↔ ∃ m ∈ l, m.id = q :=
  List.mem_map

theorem idsOf_sublist {l₁ l₂ : List Message} (h : l₁.Sublist l₂) :
    (idsOf l₁).Sublist (idsOf l₂) :=
  h.map _

theorem idsOf_reverse (l : List Message) : idsOf l.reverse = (idsOf l).reverse :=
  List.map_reverse _ _

theorem idsOf_jsSpliceInsert_perm (w : List Message) (k : Int) (m : Message) :
    (idsOf (jsSpliceInsert w k m)).Perm (m.id :: idsOf w) := by
  unfold jsSpliceInsert idsOf
  have h1 : (List.map Message.id (List.take ((if k < 0 then (max ((w.length : Int) + k) 0).toNat
      else (min k (w.length : Int)).toNat)) w ++ m :: List.drop ((if k < 0 then
      (max ((w.length : Int) + k) 0).toNat else (min k (w.length : Int)).toNat)) w)).Perm
      (m.id :: List.map Message.id w) := by
    generalize (if k < 0 then (max ((w.length : Int) + k) 0).toNat
      else (min k (w.length : Int)).toNat) = j
    rw [List.map_append]
    refine List.Perm.trans List.perm_middle ?_
    refine List.Perm.cons _ ?_
    rw [← List.map_append, List.take_append_drop]
  exact h1

theorem nodup_append_ids (A B : List Message)
    (hA : (idsOf A).Nodup) (hB : (idsOf B).Nodup)
    (hd : ∀ q ∈ idsOf A, q ∉ idsOf B) :
    (idsOf (A ++ B)).Nodup := by
  rw [idsOf_append]
  exact List.nodup_append.mpr ⟨hA, hB, hd⟩

/-! ## General anchor-presence and early-return shapes -/

theorem anchorMissing_false_same (t0 t1 : Thread) (epoch : Epoch)
    (hmsg : t1.messages = t0.messages) :
    anchorMissing (anchorsOf t0 epoch).1 (anchorsOf t0 epoch).2 t1 = false := by
  cases epoch with
  | older =>
    cases hm : oldestPersistentMessage t0 with
    | none => simp [anchorsOf, anchorMissing, hm, hmsg]
    | some m =>
      have hmem : m ∈ t0.messages := List.mem_of_find?_eq_some hm
      simp [anchorsOf, anchorMissing, hm, hmsg, List.any_eq_true]
      exact ⟨m, hmem, rfl⟩
  | newer =>
    cases hm : newestPersistentMessage t0 with
    | none => simp [anchorsOf, anchorMissing, hm, hmsg]
    | some m =>
      have hmem : m ∈ t0.messages := by
        have := List.mem_of_find?_eq_some hm
        exact List.mem_reverse.mp this
      simp [anchorsOf, anchorMissing, hm, hmsg, List.any_eq_true]
      exact ⟨m, hmem, rfl⟩

theorem fetchMoreMessages_early_shape (L : Nat) (t0 : Thread) (epoch : Epoch)
    (rpc : FetchReq → FetchOutcome) (interfere : Thread → Thread)
    (hg : entryGuard t0 epoch = false) (hne : earlyReturnCond t0 = true) :
    fetchMoreMessages L t0 epoch rpc interfere
      = (if anchorMissing (anchorsOf t0 epoch).1 (anchorsOf t0 epoch).2
             { t0 with status := Status.loading, isLoaded := true } = true
         then { t0 with status := Status.loading, isLoaded := true }
         else applyFetchedMerge L epoch
                { t0 with status := Status.loading, isLoaded := true } []) := by
  unfold fetchMoreMessages
  rw [if_neg (by simp [hg]),
      fetchMessages_early L t0 (anchorsOf t0 epoch).1 none (anchorsOf t0 epoch).2 rpc interfere
        hne]

/-! ## Shapes of the merge phase -/

theorem pending_cleared_messages (u : Thread) :
    ({ u with pendingNewMessages := [] } : Thread).messages = u.messages := rfl

theorem applyFetchedMerge_older_eq (L : Nat) (t1 : Thread) (fetched : List Message) :
    applyFetchedMerge L Epoch.older t1 fetched
      = { enrichMessagesWithTransient
            { t1 with
                messages :=
                  fetched.filter (fun m => !(decide (m.id ∈ t1.messages.map Message.id)))
                    ++ t1.messages,
                loadOlder := if fetched.length < L then false else t1.loadOlder }
          with pendingNewMessages := [] } := by
  unfold applyFetchedMerge
  by_cases hlen : fetched.length < L <;> simp [hlen]

theorem applyFetchedMerge_newer_long (L : Nat) (t1 : Thread) (fetched : List Message)
    (hlen : ¬ fetched.length < L) :
    applyFetchedMerge L Epoch.newer t1 fetched
      = { enrichMessagesWithTransient
            { t1 with
                messages := t1.messages
                  ++ fetched.filter (fun m => !(decide (m.id ∈ t1.messages.map Message.id))) }
          with pendingNewMessages := [] } := by
  simp only [applyFetchedMerge]
  rw [if_neg hlen]
  rw [if_neg (show ¬ (Epoch.newer = Epoch.older) by decide)]

theorem applyFetchedMerge_newer_short_nodrain (L : Nat) (t1 : Thread) (fetched : List Message)
    (hlen : fetched.length < L)
    (hmz : (t1.pendingNewMessages.filter
        (fun m => !(decide (m.id ∈ t1.messages.map Message.id)))).isEmpty = true) :
    applyFetchedMerge L Epoch.newer t1 fetched
      = { enrichMessagesWithTransient
            { t1 with
                messages := t1.messages
                  ++ fetched.filter (fun m => !(decide (m.id ∈ t1.messages.map Message.id))),
                loadNewer := false }
          with pendingNewMessages := [] } := by
  simp only [applyFetchedMerge]
  rw [if_pos hlen]
  rw [if_neg (show ¬ (Epoch.newer = Epoch.older) by decide)]
  rw [if_neg (show ¬ (Epoch.newer = Epoch.older) by decide)]
  rw [if_pos hmz]

theorem applyFetchedMerge_newer_short_drain (L : Nat) (t1 : Thread) (fetched : List Message)
    (hlen : fetched.length < L)
    (hmz : (t1.pendingNewMessages.filter
        (fun m => !(decide (m.id ∈ t1.messages.map Message.id)))).isEmpty = false) :
    applyFetchedMerge L Epoch.newer t1 fetched
      = { enrichMessagesWithTransient
            { t1 with
                messages := List.insertionSort (fun m1 m2 => m1.id ≤ m2.id)
                  ((t1.messages
                    ++ fetched.filter (fun m => !(decide (m.id ∈ t1.messages.map Message.id))))
                   ++ t1.pendingNewMessages.filter
                        (fun m => !(decide (m.id ∈ t1.messages.map Message.id)))),
                loadNewer := false }
          with pendingNewMessages := [] } := by
  simp only [applyFetchedMerge]
  rw [if_pos hlen]
  rw [if_neg (show ¬ (Epoch.newer = Epoch.older) by decide)]
  rw [if_neg (show ¬ (Epoch.newer = Epoch.older) by decide)]
  rw [if_neg (show ¬ ((t1.pendingNewMessages.filter
        (fun m => !(decide (m.id ∈ t1.messages.map Message.id)))).isEmpty = true) by
      rw [hmz]; exact Bool.false_ne_true)]

/-! ## Uniqueness is preserved by the transient merger under fresh ids -/

theorem foldl_enrichOne_nodup :
    ∀ (l : List Message) (t : Thread),
      (idsOf t.messages).Nodup → (idsOf l).Nodup →
      (∀ q ∈ idsOf l, q ∉ idsOf t.messages) →
      (idsOf (l.foldl enrichOne t).messages).Nodup := by
  intro l
  induction l with
  | nil => intro t h _ _; exact h
  | cons m l ih =>
    intro t hw hl hd
    rw [List.foldl_cons]
    have hperm := idsOf_jsSpliceInsert_perm t.messages (enrichInsertIdx t m - 1) m
    have hmsg : (enrichOne t m).messages
        = jsSpliceInsert t.messages (enrichInsertIdx t m - 1) m := by
      rw [enrichOne_eq_splice]
    have hlcons : idsOf (m :: l) = m.id :: idsOf l := rfl
    have hmid_notin : m.id ∉ idsOf t.messages := by
      apply hd
      rw [hlcons]
      exact List.mem_cons_self _ _
    have hm_notin_l : m.id ∉ idsOf l := by
      rw [hlcons] at hl
      exact (List.nodup_cons.mp hl).1
    apply ih
    · rw [hmsg]
      exact hperm.nodup_iff.mpr (List.nodup_cons.mpr ⟨hmid_notin, hw⟩)
    · rw [hlcons] at hl
      exact (List.nodup_cons.mp hl).2
    · intro q hq
      rw [hmsg]
      intro hmem
      have hq' := hperm.mem_iff.mp hmem
      cases List.mem_cons.mp hq' with
      | inl heq =>
        rw [heq] at hq
        exact hm_notin_l hq
      | inr hin =>
        refine hd q ?_ hin
        rw [hlcons]
        exact List.mem_cons_of_mem _ hq
  
theorem enrich_nodup (t : Thread)
    (hw : (idsOf t.messages).Nodup)
    (htrn : (idsOf t.transientMessages).Nodup)
    (htf : ∀ q ∈ idsOf t.transientMessages, q ∉ idsOf t.messages) :
    (idsOf (enrichMessagesWithTransient t).messages).Nodup :=
  foldl_enrichOne_nodup t.transientMessages t hw htrn htf

/-! ## Uniqueness is preserved by the fetched-page merge -/

theorem filter_not_known_ids (t1 : Thread) (l : List Message) :
    ∀ q ∈ idsOf (l.filter (fun m => !(decide (m.id ∈ t1.messages.map Message.id)))),
      q ∉ idsOf t1.messages := by
  intro q hq hcontra
  rcases mem_idsOf.mp hq with ⟨m, hm, hid⟩
  rcases List.mem_filter.mp hm with ⟨_, hpred⟩
  simp only [Bool.not_eq_eq_eq_not, Bool.not_true, decide_eq_false_iff_not] at hpred
  rw [← hid] at hcontra
  exact hpred hcontra

theorem filter_ids_nodup (p : Message → Bool) (l : List Message)
    (h : (idsOf l).Nodup) : (idsOf (l.filter p)).Nodup :=
  List.Nodup.sublist (idsOf_sublist (List.filter_sublist l)) h

theorem filter_ids_subset (p : Message → Bool) (l : List Message) :
    ∀ q ∈ idsOf (l.filter p), q ∈ idsOf l :=
  fun _ hq => (idsOf_sublist (List.filter_sublist l)).subset hq

theorem enrich_nodup_applied (X : Thread) (base : List Rat)
    (hperm : (idsOf X.messages).Perm base)
    (hbase : base.Nodup)
    (htrX : (idsOf X.transientMessages).Nodup)
    (hdisj : ∀ q ∈ idsOf X.transientMessages, q ∉ base) :
    (idsOf (enrichMessagesWithTransient X).messages).Nodup := by
  apply enrich_nodup
  · exact hperm.nodup_iff.mpr hbase
  · exact htrX
  · intro q hq hmem
    exact hdisj q hq (hperm.mem_iff.mp hmem)

theorem applyFetchedMerge_nodup (L : Nat) (epoch : Epoch) (t1 : Thread) (fetched : List Message)
    (hw : (idsOf t1.messages).Nodup)
    (hf : (idsOf fetched).Nodup)
    (hpend : (idsOf t1.pendingNewMessages).Nodup)
    (hpf : ∀ q ∈ idsOf t1.pendingNewMessages, q ∉ idsOf fetched)
    (htrn : (idsOf t1.transientMessages).Nodup)
    (htf : ∀ q ∈ idsOf t1.transientMessages,
      q ∉ idsOf t1.messages ∧ q ∉ idsOf fetched ∧ q ∉ idsOf t1.pendingNewMessages) :
    (idsOf (applyFetchedMerge L epoch t1 fetched).messages).Nodup := by
  have hA_nodup : (idsOf (fetched.filter
      (fun m => !(decide (m.id ∈ t1.messages.map Message.id))))).Nodup :=
    filter_ids_nodup _ _ hf
  have hA_not_known := filter_not_known_ids t1 fetched
  have hA_sub := filter_ids_subset
    (fun m => !(decide (m.id ∈ t1.messages.map Message.id))) fetched
  have hMz_nodup : (idsOf (t1.pendingNewMessages.filter
      (fun m => !(decide (m.id ∈ t1.messages.map Message.id))))).Nodup :=
    filter_ids_nodup _ _ hpend
  have hMz_not_known := filter_not_known_ids t1 t1.pendingNewMessages
  have hMz_sub := filter_ids_subset
    (fun m => !(decide (m.id ∈ t1.messages.map Message.id))) t1.pendingNewMessages
  have hbase_older : (idsOf (fetched.filter
      (fun m => !(decide (m.id ∈ t1.messages.map Message.id))))
        ++ idsOf t1.messages).Nodup :=
    List.nodup_append.mpr ⟨hA_nodup, hw, hA_not_known⟩
  have hbase_newer : (idsOf t1.messages ++ idsOf (fetched.filter
      (fun m => !(decide (m.id ∈ t1.messages.map Message.id))))).Nodup :=
    List.nodup_append.mpr ⟨hw, hA_nodup, fun q hq hmem => hA_not_known q hmem hq⟩
  cases epoch with
  | older =>
    rw [applyFetchedMerge_older_eq, pending_cleared_messages]
    refine enrich_nodup_applied _
      (idsOf (fetched.filter (fun m => !(decide (m.id ∈ t1.messages.map Message.id))))
        ++ idsOf t1.messages) ?_ hbase_older htrn ?_
    · exact List.Perm.of_eq (idsOf_append _ _)
    · intro q hq hmem
      rcases List.mem_append.mp hmem with h1 | h2
      · exact (htf q hq).2.1 (hA_sub q h1)
      · exact (htf q hq).1 h2
  | newer =>
    by_cases hlen : fetched.length < L
    · by_cases hmz : (t1.pendingNewMessages.filter
          (fun m => !(decide (m.id ∈ t1.messages.map Message.id)))).isEmpty = true
      · rw [applyFetchedMerge_newer_short_nodrain L t1 fetched hlen hmz,
            pending_cleared_messages]
        refine enrich_nodup_applied _
          (idsOf t1.messages ++ idsOf (fetched.filter
            (fun m => !(decide (m.id ∈ t1.messages.map Message.id))))) ?_ hbase_newer htrn ?_
        · exact List.Perm.of_eq (idsOf_append _ _)
        · intro q hq hmem
          rcases List.mem_append.mp hmem with h1 | h2
          · exact (htf q hq).1 h1
          · exact (htf q hq).2.1 (hA_sub q h2)
      · have hmz' : (t1.pendingNewMessages.filter
            (fun m => !(decide (m.id ∈ t1.messages.map Message.id)))).isEmpty = false := by
          cases hval : (t1.pendingNewMessages.filter
            (fun m => !(decide (m.id ∈ t1.messages.map Message.id)))).isEmpty
          · rfl
          · exact absurd hval hmz
        rw [applyFetchedMerge_newer_short_drain L t1 fetched hlen hmz',
            pending_cleared_messages]
        refine enrich_nodup_applied _
          ((idsOf t1.messages ++ idsOf (fetched.filter
              (fun m => !(decide (m.id ∈ t1.messages.map Message.id)))))
            ++ idsOf (t1.pendingNewMessages.filter
              (fun m => !(decide (m.id ∈ t1.messages.map Message.id)))))
          ?_ ?_ htrn ?_
        · refine ((List.perm_insertionSort _ _).map Message.id).trans ?_
          refine List.Perm.of_eq ?_
          simp [idsOf, List.map_append]
        · refine List.nodup_append.mpr ⟨hbase_newer, hMz_nodup, ?_⟩
          intro q hq hqMz
          rcases List.mem_append.mp hq with h1 | h2
          · exact hMz_not_known q hqMz h1
          · exact hpf q (hMz_sub q hqMz) (hA_sub q h2)
        · intro q hq hmem
          rcases List.mem_append.mp hmem with h12 | h3
          · rcases List.mem_append.mp h12 with h1 | h2
            · exact (htf q hq).1 h1
            · exact (htf q hq).2.1 (hA_sub q h2)
          · exact (htf q hq).2.2 (hMz_sub q h3)
    · rw [applyFetchedMerge_newer_long L t1 fetched hlen, pending_cleared_messages]
      refine enrich_nodup_applied _
        (idsOf t1.messages ++ idsOf (fetched.filter
          (fun m => !(decide (m.id ∈ t1.messages.map Message.id))))) ?_ hbase_newer htrn ?_
      · exact List.Perm.of_eq (idsOf_append _ _)
      · intro q hq hmem
        rcases List.mem_append.mp hmem with h1 | h2
        · exact (htf q hq).1 h1
        · exact (htf q hq).2.1 (hA_sub q h2)

/-! ## Uniqueness is preserved by the `fetchNewMessages` feed -/

theorem nodup_ids_insert_at (w F : List Message) (s : Nat)
    (hw : (idsOf w).Nodup) (hF : (idsOf F).Nodup)
    (hd : ∀ q ∈ idsOf F, q ∉ idsOf w) :
    (idsOf (w.take s ++ F ++ w.drop s)).Nodup := by
  have hperm : (w.take s ++ F ++ w.drop s).Perm (F ++ w) := by
    rw [List.append_assoc]
    refine (List.perm_append_comm).trans ?_
    rw [List.append_assoc]
    refine List.Perm.append_left F ?_
    refine (List.perm_append_comm).trans ?_
    rw [List.take_append_drop]
  refine ((hperm.map Message.id).nodup_iff).mpr ?_
  rw [List.map_append]
  exact List.nodup_append.mpr ⟨hF, hw, hd⟩

theorem filter_and_not_known_ids (t1 : Thread) (l : List Message) (p2 : Message → Bool) :
    ∀ q ∈ idsOf (l.filter
        (fun m => !(decide (m.id ∈ t1.messages.map Message.id)) && p2 m)),
      q ∉ idsOf t1.messages := by
  intro q hq hcontra
  rcases mem_idsOf.mp hq with ⟨m, hm, hid⟩
  rcases List.mem_filter.mp hm with ⟨_, hpred⟩
  rcases (Bool.and_eq_true _ _).mp hpred with ⟨h1, _⟩
  simp only [Bool.not_eq_eq_eq_not, Bool.not_true, decide_eq_false_iff_not] at h1
  rw [← hid] at hcontra
  exact h1 hcontra

theorem applyNewMerge_nodup (L : Nat) (after : Option Rat) (t1 : Thread)
    (fetched : List Message)
    (hw : (idsOf t1.messages).Nodup) (hf : (idsOf fetched).Nodup) :
    (idsOf (applyNewMerge L after t1 fetched).messages).Nodup := by
  cases after with
  | none =>
    exact nodup_ids_insert_at t1.messages
      (fetched.filter
        (fun m => !(decide (m.id ∈ t1.messages.map Message.id)) && newRangeCond t1 m))
      0 hw (filter_ids_nodup _ _ hf)
      (filter_and_not_known_ids t1 fetched (newRangeCond t1))
  | some a =>
    cases hidx : t1.messages.findIdx? (fun m => decide (m.id = a)) with
    | none =>
      have heq : applyNewMerge L (some a) t1 fetched = t1 := by
        simp only [applyNewMerge, hidx]
      rw [heq]
      exact hw
    | some i =>
      have heq : (applyNewMerge L (some a) t1 fetched).messages
          = t1.messages.take (i + 1)
            ++ fetched.filter
                (fun m => !(decide (m.id ∈ t1.messages.map Message.id)) && newRangeCond t1 m)
            ++ t1.messages.drop (i + 1) := by
        simp only [applyNewMerge, hidx]
      rw [heq]
      exact nodup_ids_insert_at t1.messages _ (i + 1) hw (filter_ids_nodup _ _ hf)
        (filter_and_not_known_ids t1 fetched (newRangeCond t1))

/-! ## C5 -/

/-- C5, counterexample: the window `[1]` is duplicate-free, the fetched page
`[3]` is duplicate-free, yet after `fetchMoreMessages("newer")` the window
contains id 3 twice — the message arrived both in the fetched page and in the
`pendingNewMessages` buffer, and the drain at thread_model.js:737-743 filters
the buffer only against the pre-insertion ids. -/
theorem c5_counterexample :
    (idsOf tW5.messages).Nodup
    ∧ (idsOf [({ id := 3 } : Message)]).Nodup
    ∧ ¬ (idsOf (fetchMoreMessages 30 tW5 Epoch.newer
          (fun _ => FetchOutcome.success [{ id := 3 }]) id).messages).Nodup := by
  refine ⟨by decide, by decide, by decide⟩

/-- C5, amended: both fetch merges filter the fetched page against the ids
already present in the window before insertion, so a merge of a page that
overlaps the window never duplicates ids — provided the concurrent inputs
introduce no collision of their own: the `pendingNewMessages` buffer drained by
a `"newer"` merge must not share ids with the fetched page (the drain filter
only checks the pre-insertion window), and the transient messages re-applied
by the merger must carry fresh ids. `fetchNewMessages` preserves uniqueness
with no extra proviso. -/
theorem c5_amended (L : Nat) (t u : Thread) (epoch : Epoch) (raw rawU : List Message)
    (hw : (idsOf t.messages).Nodup)
    (hraw : (idsOf raw).Nodup)
    (hpend : (idsOf t.pendingNewMessages).Nodup)
    (hpf : ∀ q ∈ idsOf t.pendingNewMessages, q ∉ idsOf raw)
    (htrn : (idsOf t.transientMessages).Nodup)
    (htf : ∀ q ∈ idsOf t.transientMessages,
      q ∉ idsOf t.messages ∧ q ∉ idsOf raw ∧ q ∉ idsOf t.pendingNewMessages)
    (hwu : (idsOf u.messages).Nodup)
    (hrawU : (idsOf rawU).Nodup) :
    (idsOf (fetchMoreMessages L t epoch
        (fun _ => FetchOutcome.success raw) id).messages).Nodup
    ∧ (idsOf (fetchNewMessages L u
        (fun _ => FetchOutcome.success rawU) id).messages).Nodup := by
  constructor
  · by_cases hg : entryGuard t epoch = true
    · rw [fetchMoreMessages_guard L t epoch _ id hg]
      exact hw
    · have hg' : entryGuard t epoch = false := Bool.eq_false_iff.mpr hg
      by_cases hne : earlyReturnCond t = true
      · rw [fetchMoreMessages_early_shape L t epoch _ id hg' hne,
            if_neg (by
              simp [anchorMissing_false_same t
                { t with status := Status.loading, isLoaded := true } epoch rfl])]
        exact applyFetchedMerge_nodup L epoch _ [] hw List.nodup_nil hpend
          (fun q _ hmem => (List.not_mem_nil q) hmem)
          htrn
          (fun q hq => ⟨(htf q hq).1, fun hmem => (List.not_mem_nil q) hmem, (htf q hq).2.2⟩)
      · have hne' : earlyReturnCond t = false := Bool.eq_false_iff.mpr hne
        rw [fetchMoreMessages_success_shape L t epoch raw id hg' hne',
            if_neg (by simp [anchorMissing_false_id t epoch])]
        refine applyFetchedMerge_nodup L epoch _ raw.reverse hw ?_ hpend ?_ htrn ?_
        · rw [idsOf_reverse]
          exact List.nodup_reverse.mpr hraw
        · intro q hq hmem
          rw [idsOf_reverse, List.mem_reverse] at hmem
          exact hpf q hq hmem
        · intro q hq
          refine ⟨(htf q hq).1, ?_, (htf q hq).2.2⟩
          intro hmem
          rw [idsOf_reverse, List.mem_reverse] at hmem
          exact (htf q hq).2.1 hmem
  · by_cases hgd : (u.status = Status.loading
        ∨ (u.isLoaded = true ∧ (u.model = ThreadModel.channel ∨ u.model = ThreadModel.mailbox)))
    · have heq : fetchNewMessages L u (fun _ => FetchOutcome.success rawU) id = u := by
        unfold fetchNewMessages
        rw [if_pos hgd]
      rw [heq]
      exact hwu
    · unfold fetchNewMessages
      rw [if_neg hgd]
      by_cases hne : earlyReturnCond u = true
      · rw [fetchMessages_early L u (fetchNewAnchor u) none none _ id hne]
        exact applyNewMerge_nodup L (fetchNewAnchor u) _ [] hwu List.nodup_nil
      · have hne' : earlyReturnCond u = false := Bool.eq_false_iff.mpr hne
        rw [fetchMessages_ok L u (fetchNewAnchor u) none none rawU _ id hne' rfl]
        refine applyNewMerge_nodup L (fetchNewAnchor u) _ rawU.reverse hwu ?_
        rw [idsOf_reverse]
        exact List.nodup_reverse.mpr hrawU

theorem c5_witness :
    ((idsOf tW5b.messages).Nodup ∧ (idsOf [({ id := 3 } : Message)]).Nodup
      ∧ (idsOf tW5c.messages).Nodup)
    ∧ (idsOf (fetchMoreMessages 30 tW5b Epoch.newer
        (fun _ => FetchOutcome.success [{ id := 3 }]) id).messages).Nodup
    ∧ (idsOf (fetchNewMessages 30 tW5c
        (fun _ => FetchOutcome.success [{ id := 3 }]) id).messages).Nodup :=
  ⟨⟨by decide, by decide, by decide⟩,
   (c5_amended 30 tW5b tW5c Epoch.newer [{ id := 3 }] [{ id := 3 }]
      (by decide) (by decide) (by decide) (by decide) (by decide) (by decide)
      (by decide) (by decide)).1,
   (c5_amended 30 tW5b tW5c Epoch.newer [{ id := 3 }] [{ id := 3 }]
      (by decide) (by decide) (by decide) (by decide) (by decide) (by decide)
      (by decide) (by decide)).2⟩

/-! ## Persisted-id views of the window -/

theorem pids_append (A B : List Message) : pids (A ++ B) = pids A ++ pids B := by
  simp [pids, List.filter_append]

theorem pids_map_msgOf (c : List Rat) (h : ∀ q ∈ c, q.isInt = true) :
    pids (c.map msgOf) = c := by
  unfold pids
  rw [List.filter_eq_self.mpr ?_]
  · rw [List.map_map]
    exact List.map_id' c
  · intro m hm
    rcases List.mem_map.mp hm with ⟨q, hq, hqm⟩
    rw [← hqm]
    exact h q hq

theorem find?_eq_head?_filter (p : Message → Bool) :
    ∀ l : List Message, l.find? p = (l.filter p).head? := by
  intro l
  induction l with
  | nil => rfl
  | cons a l ih =>
    by_cases hp : p a = true
    · rw [List.find?_cons_of_pos _ hp, List.filter_cons_of_pos hp]
      rfl
    · rw [List.find?_cons_of_neg _ hp, List.filter_cons_of_neg hp, ih]

theorem oldest_pids (t : Thread) :
    Option.map Message.id (oldestPersistentMessage t) = (pids t.messages).head? := by
  unfold oldestPersistentMessage pids
  rw [find?_eq_head?_filter, ← List.head?_map]

theorem newest_pids (t : Thread) :
    Option.map Message.id (newestPersistentMessage t) = (pids t.messages).getLast? := by
  unfold newestPersistentMessage pids
  rw [find?_eq_head?_filter, List.filter_reverse, List.head?_reverse, ← List.getLast?_map]

theorem head?_mem {α : Type} {l : List α} {b : α} (h : l.head? = some b) : b ∈ l := by
  cases l with
  | nil => simp at h
  | cons a l =>
    have : a = b := by simpa using h
    rw [← this]
    exact List.mem_cons_self _ _

theorem getLast?_mem {α : Type} {l : List α} {a : α} (h : l.getLast? = some a) : a ∈ l := by
  rw [← List.head?_reverse] at h
  exact List.mem_reverse.mp (head?_mem h)

theorem pairwise_head?_le (P : List Rat) (hs : P.Pairwise (fun a b => a < b)) (b : Rat)
    (hb : P.head? = some b) : ∀ x ∈ P, b ≤ x := by
  cases P with
  | nil => simp at hb
  | cons c tl =>
    have hbc : c = b := by simpa using hb
    intro x hx
    rcases List.mem_cons.mp hx with h | h
    · rw [h, ← hbc]
    · rw [← hbc]
      exact le_of_lt (List.rel_of_pairwise_cons hs h)

theorem pairwise_head?_rel {α : Type} {R : α → α → Prop} {P : List α} {b : α}
    (hs : P.Pairwise R) (hb : P.head? = some b) : ∀ x ∈ P, x = b ∨ R b x := by
  cases P with
  | nil => simp at hb
  | cons c tl =>
    have hbc : c = b := by simpa using hb
    intro x hx
    rcases List.mem_cons.mp hx with h | h
    · left
      rw [h, hbc]
    · right
      rw [← hbc]
      exact List.rel_of_pairwise_cons hs h

theorem pairwise_getLast?_ge (P : List Rat) (hs : P.Pairwise (fun a b => a < b)) (a : Rat)
    (ha : P.getLast? = some a) : ∀ x ∈ P, x ≤ a := by
  intro x hx
  rw [← List.head?_reverse] at ha
  have hs' : P.reverse.Pairwise (fun u v => v < u) := List.pairwise_reverse.mpr hs
  rcases pairwise_head?_rel hs' ha x (List.mem_reverse.mpr hx) with h | h
  · exact le_of_eq h
  · exact le_of_lt h

theorem sorted_drop_mem (B : List Rat) (hs : B.Pairwise (fun a b => a < b)) (k : Nat)
    (q lo : Rat) (hq : q ∈ B) (hlo : lo ∈ B.drop k) (hle : lo ≤ q) : q ∈ B.drop k := by
  have hsplit := List.take_append_drop k B
  rw [← hsplit] at hq hs
  rcases List.mem_append.mp hq with hq1 | hq2
  · exfalso
    have hcross := (List.pairwise_append.mp hs).2.2 q hq1 lo hlo
    exact absurd hle (not_le.mpr hcross)
  · exact hq2

theorem sorted_take_mem (B : List Rat) (hs : B.Pairwise (fun a b => a < b)) (k : Nat)
    (q hi : Rat) (hq : q ∈ B) (hhi : hi ∈ B.take k) (hle : q ≤ hi) : q ∈ B.take k := by
  have hsplit := List.take_append_drop k B
  rw [← hsplit] at hq hs
  rcases List.mem_append.mp hq with hq1 | hq2
  · exact hq1
  · exfalso
    have hcross := (List.pairwise_append.mp hs).2.2 hi hhi q hq2
    exact absurd hle (not_le.mpr hcross)

/-! ## The transient merger does not change the persisted ids -/

theorem pids_jsSpliceInsert (w : List Message) (k : Int) (m : Message)
    (hm : m.id.isInt = false) : pids (jsSpliceInsert w k m) = pids w := by
  unfold jsSpliceInsert pids
  generalize (if k < 0 then (max ((w.length : Int) + k) 0).toNat
    else (min k (w.length : Int)).toNat) = j
  rw [List.filter_append, List.filter_cons_of_neg (by simp [hm]), ← List.filter_append,
      List.take_append_drop]

theorem foldl_enrichOne_pids :
    ∀ (l : List Message) (t : Thread), (∀ m ∈ l, m.id.isInt = false) →
      pids ((l.foldl enrichOne t).messages) = pids t.messages := by
  intro l
  induction l with
  | nil => intro t _; rfl
  | cons m l ih =>
    intro t hl
    rw [List.foldl_cons, ih _ (fun x hx => hl x (List.mem_cons_of_mem _ hx)),
        enrichOne_eq_splice]
    exact pids_jsSpliceInsert t.messages _ m (hl m (List.mem_cons_self _ _))

theorem enrich_pids (t : Thread) (htr : ∀ m ∈ t.transientMessages, m.id.isInt = false) :
    pids (enrichMessagesWithTransient t).messages = pids t.messages :=
  foldl_enrichOne_pids t.transientMessages t htr

/-! ## Window ids split into persisted and non-integer ids -/

theorem idsOf_mem_cases (l : List Message) (q : Rat) (hq : q ∈ idsOf l) :
    q ∈ pids l ∨ q.isInt = false := by
  rcases mem_idsOf.mp hq with ⟨m, hm, hid⟩
  by_cases hi : m.id.isInt = true
  · left
    unfold pids
    rw [← hid]
    exact List.mem_map_of_mem _ (List.mem_filter.mpr ⟨hm, hi⟩)
  · right
    rw [← hid]
    exact Bool.eq_false_iff.mpr hi

theorem filter_known_eq_self (t1 : Thread) (l : List Message)
    (h : ∀ m ∈ l, m.id ∉ idsOf t1.messages) :
    l.filter (fun m => !(decide (m.id ∈ t1.messages.map Message.id))) = l := by
  refine List.filter_eq_self.mpr ?_
  intro m hm
  rw [Bool.not_eq_true', decide_eq_false_iff_not]
  exact h m hm

/-! ## Contiguity extension lemmas on persisted-id lists -/

theorem contig_extend_older (log P : List Rat) (L : Nat) (b : Rat)
    (hlogs : log.Pairwise (fun x y => x < y))
    (hsP : P.Pairwise (fun x y => x < y))
    (hsub : ∀ q ∈ P, q ∈ log)
    (hcontig : ∀ q ∈ log, (∃ lo ∈ P, lo ≤ q) → (∃ hi ∈ P, q ≤ hi) → q ∈ P)
    (hheadP : P.head? = some b) :
    let F := takeLastN L (log.filter (fun q => decide (q < b)))
    (∀ q ∈ F ++ P, q ∈ log)
    ∧ (F ++ P).Pairwise (fun x y => x < y)
    ∧ (∀ q ∈ log, (∃ lo ∈ F ++ P, lo ≤ q) → (∃ hi ∈ F ++ P, q ≤ hi) → q ∈ F ++ P) := by
  intro F
  have hBs : (log.filter (fun q => decide (q < b))).Pairwise (fun x y => x < y) :=
    hlogs.filter _
  have hFsubB : F.Sublist (log.filter (fun q => decide (q < b))) := List.drop_sublist _ _
  have hFmem : ∀ q ∈ F, q ∈ log ∧ q < b := by
    intro q hq
    have := hFsubB.subset hq
    rcases List.mem_filter.mp this with ⟨h1, h2⟩
    exact ⟨h1, by simpa using h2⟩
  have hminP : ∀ x ∈ P, b ≤ x := pairwise_head?_le P hsP b hheadP
  have hbP : b ∈ P := head?_mem hheadP
  refine ⟨?_, ?_, ?_⟩
  · intro q hq
    rcases List.mem_append.mp hq with h | h
    · exact (hFmem q h).1
    · exact hsub q h
  · refine List.pairwise_append.mpr ⟨List.Pairwise.sublist hFsubB hBs, hsP, ?_⟩
    intro x hx y hy
    exact lt_of_lt_of_le (hFmem x hx).2 (hminP y hy)
  · intro q hq hlo hhi
    by_cases hqb : q < b
    · have hqB : q ∈ log.filter (fun x => decide (x < b)) :=
        List.mem_filter.mpr ⟨hq, by simpa using hqb⟩
      rcases hlo with ⟨lo, hloMem, hloLe⟩
      rcases List.mem_append.mp hloMem with hloF | hloP
      · refine List.mem_append.mpr (Or.inl ?_)
        exact sorted_drop_mem _ hBs _ q lo hqB hloF hloLe
      · exfalso
        exact absurd (lt_of_le_of_lt (le_trans (hminP lo hloP) hloLe) hqb) (lt_irrefl b)
    · push_neg at hqb
      rcases hhi with ⟨hi, hhiMem, hhiLe⟩
      rcases List.mem_append.mp hhiMem with hhiF | hhiP
      · exfalso
        exact absurd (lt_of_lt_of_le (lt_of_le_of_lt hhiLe (hFmem hi hhiF).2) hqb)
          (lt_irrefl q)
      · refine List.mem_append.mpr (Or.inr ?_)
        exact hcontig q hq ⟨b, hbP, hqb⟩ ⟨hi, hhiP, hhiLe⟩

theorem contig_extend_newer (log P : List Rat) (L : Nat) (a : Rat)
    (hlogs : log.Pairwise (fun x y => x < y))
    (hsP : P.Pairwise (fun x y => x < y))
    (hsub : ∀ q ∈ P, q ∈ log)
    (hcontig : ∀ q ∈ log, (∃ lo ∈ P, lo ≤ q) → (∃ hi ∈ P, q ≤ hi) → q ∈ P)
    (hlastP : P.getLast? = some a) :
    let F := (log.filter (fun q => decide (a < q))).take L
    (∀ q ∈ P ++ F, q ∈ log)
    ∧ (P ++ F).Pairwise (fun x y => x < y)
    ∧ (∀ q ∈ log, (∃ lo ∈ P ++ F, lo ≤ q) → (∃ hi ∈ P ++ F, q ≤ hi) → q ∈ P ++ F) := by
  intro F
  have hCs : (log.filter (fun q => decide (a < q))).Pairwise (fun x y => x < y) :=
    hlogs.filter _
  have hFsubC : F.Sublist (log.filter (fun q => decide (a < q))) := List.take_sublist _ _
  have hFmem : ∀ q ∈ F, q ∈ log ∧ a < q := by
    intro q hq
    have := hFsubC.subset hq
    rcases List.mem_filter.mp this with ⟨h1, h2⟩
    exact ⟨h1, by simpa using h2⟩
  have hmaxP : ∀ x ∈ P, x ≤ a := pairwise_getLast?_ge P hsP a hlastP
  have haP : a ∈ P := getLast?_mem hlastP
  refine ⟨?_, ?_, ?_⟩
  · intro q hq
    rcases List.mem_append.mp hq with h | h
    · exact hsub q h
    · exact (hFmem q h).1
  · refine List.pairwise_append.mpr ⟨hsP, List.Pairwise.sublist hFsubC hCs, ?_⟩
    intro x hx y hy
    exact lt_of_le_of_lt (hmaxP x hx) (hFmem y hy).2
  · intro q hq hlo hhi
    by_cases hqa : a < q
    · have hqC : q ∈ log.filter (fun x => decide (a < x)) :=
        List.mem_filter.mpr ⟨hq, by simpa using hqa⟩
      rcases hhi with ⟨hi, hhiMem, hhiLe⟩
      rcases List.mem_append.mp hhiMem with hhiP | hhiF
      · exfalso
        exact absurd (lt_of_le_of_lt (le_trans hhiLe (hmaxP hi hhiP)) hqa) (lt_irrefl q)
      · refine List.mem_append.mpr (Or.inr ?_)
        exact sorted_take_mem _ hCs _ q hi hqC hhiF hhiLe
    · push_neg at hqa
      rcases hlo with ⟨lo, hloMem, hloLe⟩
      rcases List.mem_append.mp hloMem with hloP | hloF
      · refine List.mem_append.mpr (Or.inl ?_)
        exact hcontig q hq ⟨lo, hloP, hloLe⟩ ⟨a, haP, hqa⟩
      · exfalso
        exact absurd (lt_of_lt_of_le (lt_of_lt_of_le (hFmem lo hloF).2 hloLe) hqa)
          (lt_irrefl a)

theorem contig_fresh (log : List Rat) (L : Nat)
    (hlogs : log.Pairwise (fun x y => x < y)) :
    let D := takeLastN L log
    (∀ q ∈ D, q ∈ log)
    ∧ D.Pairwise (fun x y => x < y)
    ∧ (∀ q ∈ log, (∃ lo ∈ D, lo ≤ q) → (∃ hi ∈ D, q ≤ hi) → q ∈ D) := by
  intro D
  have hDsub : D.Sublist log := List.drop_sublist _ _
  refine ⟨fun q hq => hDsub.subset hq, List.Pairwise.sublist hDsub hlogs, ?_⟩
  intro q hq hlo _
  rcases hlo with ⟨lo, hloMem, hloLe⟩
  exact sorted_drop_mem _ hlogs _ q lo hq hloMem hloLe

/-! ## Field preservation through the fetched-page merge -/

theorem applyFetchedMerge_pending (L : Nat) (e : Epoch) (t1 : Thread) (f : List Message) :
    (applyFetchedMerge L e t1 f).pendingNewMessages = [] := rfl

theorem applyFetchedMerge_fields (L : Nat) (e : Epoch) (t1 : Thread) (f : List Message) :
    (applyFetchedMerge L e t1 f).transientMessages = t1.transientMessages
    ∧ (applyFetchedMerge L e t1 f).model = t1.model
    ∧ (applyFetchedMerge L e t1 f).idTruthy = t1.idTruthy := by
  cases e with
  | older =>
    rw [applyFetchedMerge_older_eq]
    exact ⟨enrich_transientMessages _, enrich_model _, enrich_idTruthy _⟩
  | newer =>
    by_cases hlen : f.length < L
    · by_cases hmz : (t1.pendingNewMessages.filter
          (fun m => !(decide (m.id ∈ t1.messages.map Message.id)))).isEmpty = true
      · rw [applyFetchedMerge_newer_short_nodrain L t1 f hlen hmz]
        exact ⟨enrich_transientMessages _, enrich_model _, enrich_idTruthy _⟩
      · rw [applyFetchedMerge_newer_short_drain L t1 f hlen (Bool.eq_false_iff.mpr hmz)]
        exact ⟨enrich_transientMessages _, enrich_model _, enrich_idTruthy _⟩
    · rw [applyFetchedMerge_newer_long L t1 f hlen]
      exact ⟨enrich_transientMessages _, enrich_model _, enrich_idTruthy _⟩

theorem earlyReturnCond_congr (u v : Thread) (hm : u.model = v.model)
    (hi : u.idTruthy = v.idTruthy) : earlyReturnCond u = earlyReturnCond v := by
  unfold earlyReturnCond
  rw [hm, hi]

/-! ## Persisted ids after a merge of fresh server pages -/

theorem applyFetchedMerge_pids_older (L : Nat) (t1 : Thread) (c : List Rat)
    (hcint : ∀ q ∈ c, q.isInt = true)
    (hdisj : ∀ m ∈ c.map msgOf, m.id ∉ idsOf t1.messages)
    (htr : ∀ m ∈ t1.transientMessages, m.id.isInt = false) :
    pids (applyFetchedMerge L Epoch.older t1 (c.map msgOf)).messages
      = c ++ pids t1.messages := by
  have hfilter := filter_known_eq_self t1 (c.map msgOf) hdisj
  rw [applyFetchedMerge_older_eq, hfilter, pending_cleared_messages]
  refine (enrich_pids
    { t1 with messages := c.map msgOf ++ t1.messages,
              loadOlder := if (c.map msgOf).length < L then false else t1.loadOlder }
    htr).trans ?_
  show pids (c.map msgOf ++ t1.messages) = c ++ pids t1.messages
  rw [pids_append, pids_map_msgOf c hcint]

theorem applyFetchedMerge_pids_newer (L : Nat) (t1 : Thread) (c : List Rat)
    (hcint : ∀ q ∈ c, q.isInt = true)
    (hdisj : ∀ m ∈ c.map msgOf, m.id ∉ idsOf t1.messages)
    (hp : t1.pendingNewMessages = [])
    (htr : ∀ m ∈ t1.transientMessages, m.id.isInt = false) :
    pids (applyFetchedMerge L Epoch.newer t1 (c.map msgOf)).messages
      = pids t1.messages ++ c := by
  have hfilter := filter_known_eq_self t1 (c.map msgOf) hdisj
  have hmz : (t1.pendingNewMessages.filter
      (fun m => !(decide (m.id ∈ t1.messages.map Message.id)))).isEmpty = true := by
    rw [hp]
    rfl
  by_cases hlen : (c.map msgOf).length < L
  · rw [applyFetchedMerge_newer_short_nodrain L t1 (c.map msgOf) hlen hmz, hfilter,
        pending_cleared_messages]
    refine (enrich_pids
      { t1 with messages := t1.messages ++ c.map msgOf, loadNewer := false } htr).trans ?_
    show pids (t1.messages ++ c.map msgOf) = pids t1.messages ++ c
    rw [pids_append, pids_map_msgOf c hcint]
  · rw [applyFetchedMerge_newer_long L t1 (c.map msgOf) hlen, hfilter,
        pending_cleared_messages]
    refine (enrich_pids
      { t1 with messages := t1.messages ++ c.map msgOf } htr).trans ?_
    show pids (t1.messages ++ c.map msgOf) = pids t1.messages ++ c
    rw [pids_append, pids_map_msgOf c hcint]

/-! ## A `fetchMoreMessages` shape lemma for request-dependent transports -/

theorem fetchMoreMessages_rpc_success_shape (L : Nat) (t0 : Thread) (epoch : Epoch)
    (rpc : FetchReq → FetchOutcome) (interfere : Thread → Thread) (raw : List Message)
    (hg : entryGuard t0 epoch = false) (hne : earlyReturnCond t0 = false)
    (hrpc : rpc (requestOf L (anchorsOf t0 epoch).1 none (anchorsOf t0 epoch).2)
      = FetchOutcome.success raw) :
    fetchMoreMessages L t0 epoch rpc interfere
      = (if anchorMissing (anchorsOf t0 epoch).1 (anchorsOf t0 epoch).2
              (resumeSuccess t0 interfere) = true
         then resumeSuccess t0 interfere
         else applyFetchedMerge L epoch (resumeSuccess t0 interfere) raw.reverse) := by
  unfold fetchMoreMessages
  rw [if_neg (by simp [hg]),
      fetchMessages_ok L t0 (anchorsOf t0 epoch).1 none (anchorsOf t0 epoch).2 raw rpc interfere
        hne hrpc]

/-! ## One fetch step against the remote log preserves the window invariant -/

theorem stepFetchMore_preserves (log : List Rat) (L : Nat) (t : Thread) (e : Epoch)
    (hlog : LogOk log) (hw : WindowInv log t) (hs : SideInv t) :
    WindowInv log (stepFetchMore log L t e) ∧ SideInv (stepFetchMore log L t e) := by
  obtain ⟨hlogs, hlogint⟩ := hlog
  obtain ⟨hsub, hsort, hcontig⟩ := hw
  obtain ⟨hpend, htrans, hne⟩ := hs
  by_cases hg : entryGuard t e = true
  · unfold stepFetchMore
    rw [fetchMoreMessages_guard L t e (serverRpc log) id hg]
    exact ⟨⟨hsub, hsort, hcontig⟩, ⟨hpend, htrans, hne⟩⟩
  · have hg' : entryGuard t e = false := Bool.eq_false_iff.mpr hg
    unfold stepFetchMore
    rw [fetchMoreMessages_rpc_success_shape L t e (serverRpc log) id
          (((serverChunk log L (anchorsOf t e).1 (anchorsOf t e).2).map msgOf).reverse)
          hg' hne rfl,
        if_neg (by simp [anchorMissing_false_id t e]),
        List.reverse_reverse]
    have hside : ∀ c : List Rat,
        SideInv (applyFetchedMerge L e (resumeSuccess t id) (c.map msgOf)) := by
      intro c
      unfold SideInv
      refine ⟨applyFetchedMerge_pending _ _ _ _, ?_, ?_⟩
      · rw [(applyFetchedMerge_fields L e (resumeSuccess t id) (c.map msgOf)).1]
        exact htrans
      · rw [earlyReturnCond_congr _ t
            (applyFetchedMerge_fields L e (resumeSuccess t id) (c.map msgOf)).2.1
            (applyFetchedMerge_fields L e (resumeSuccess t id) (c.map msgOf)).2.2]
        exact hne
    cases e with
    | older =>
      cases hb : (pids t.messages).head? with
      | some b =>
        have hanch2 : (anchorsOf t Epoch.older).2 = some b := by
          show Option.map Message.id (oldestPersistentMessage t) = some b
          rw [oldest_pids]
          exact hb
        rw [show (anchorsOf t Epoch.older).1 = none from rfl, hanch2,
            show serverChunk log L none (some b)
              = takeLastN L (log.filter (fun q => decide (q < b))) from rfl]
        have hdisj : ∀ m ∈ (takeLastN L (log.filter (fun x => decide (x < b)))).map msgOf,
            m.id ∉ idsOf (resumeSuccess t id).messages := by
          intro m hm hmem
          rcases List.mem_map.mp hm with ⟨q, hq, hqm⟩
          have hm_id : m.id = q := by
            rw [← hqm]
            rfl
          rw [hm_id] at hmem
          have hqB : q ∈ log.filter (fun x => decide (x < b)) :=
            (List.drop_sublist _ _).subset hq
          rcases List.mem_filter.mp hqB with ⟨hqlog, hqlt'⟩
          have hqlt : q < b := by simpa using hqlt'
          rcases idsOf_mem_cases (resumeSuccess t id).messages q hmem with hpid | hnint
          · have hge : b ≤ q := pairwise_head?_le (pids t.messages) hsort b hb q hpid
            exact absurd hqlt (not_lt.mpr hge)
          · rw [hlogint q hqlog] at hnint
            exact absurd hnint (by decide)
        have hcint : ∀ q ∈ takeLastN L (log.filter (fun x => decide (x < b))),
            q.isInt = true := by
          intro q hq
          exact hlogint q ((List.filter_sublist _).subset ((List.drop_sublist _ _).subset hq))
        have hpids : pids (applyFetchedMerge L Epoch.older (resumeSuccess t id)
            ((takeLastN L (log.filter (fun x => decide (x < b)))).map msgOf)).messages
            = takeLastN L (log.filter (fun x => decide (x < b))) ++ pids t.messages :=
          applyFetchedMerge_pids_older L (resumeSuccess t id) _ hcint hdisj htrans
        have hco := contig_extend_older log (pids t.messages) L b hlogs hsort hsub hcontig hb
        refine ⟨?_, hside _⟩
        unfold WindowInv
        refine ⟨?_, ?_, ?_⟩ <;> rw [hpids]
        · exact hco.1
        · exact hco.2.1
        · exact hco.2.2
      | none =>
        have hanch2 : (anchorsOf t Epoch.older).2 = none := by
          show Option.map Message.id (oldestPersistentMessage t) = none
          rw [oldest_pids]
          exact hb
        rw [show (anchorsOf t Epoch.older).1 = none from rfl, hanch2,
            show serverChunk log L none none = takeLastN L log from rfl]
        have hPnil : pids t.messages = [] := List.head?_eq_none_iff.mp hb
        have hdisj : ∀ m ∈ (takeLastN L log).map msgOf,
            m.id ∉ idsOf (resumeSuccess t id).messages := by
          intro m hm hmem
          rcases List.mem_map.mp hm with ⟨q, hq, hqm⟩
          have hm_id : m.id = q := by
            rw [← hqm]
            rfl
          rw [hm_id] at hmem
          have hqlog : q ∈ log := (List.drop_sublist _ _).subset hq
          rcases idsOf_mem_cases (resumeSuccess t id).messages q hmem with hpid | hnint
          · have hpid' : q ∈ pids t.messages := hpid
            rw [hPnil] at hpid'
            exact absurd hpid' (List.not_mem_nil q)
          · rw [hlogint q hqlog] at hnint
            exact absurd hnint (by decide)
        have hcint : ∀ q ∈ takeLastN L log, q.isInt = true := by
          intro q hq
          exact hlogint q ((List.drop_sublist _ _).subset hq)
        have hpids : pids (applyFetchedMerge L Epoch.older (resumeSuccess t id)
            ((takeLastN L log).map msgOf)).messages
            = takeLastN L log ++ pids t.messages :=
          applyFetchedMerge_pids_older L (resumeSuccess t id) _ hcint hdisj htrans
        have hco := contig_fresh log L hlogs
        refine ⟨?_, hside _⟩
        unfold WindowInv
        refine ⟨?_, ?_, ?_⟩ <;> rw [hpids, hPnil, List.append_nil]
        · exact hco.1
        · exact hco.2.1
        · exact hco.2.2
    | newer =>
      cases ha : (pids t.messages).getLast? with
      | some a =>
        have hanch1 : (anchorsOf t Epoch.newer).1 = some a := by
          show Option.map Message.id (newestPersistentMessage t) = some a
          rw [newest_pids]
          exact ha
        rw [hanch1, show (anchorsOf t Epoch.newer).2 = none from rfl,
            show serverChunk log L (some a) none
              = (log.filter (fun q => decide (a < q))).take L from rfl]
        have hdisj : ∀ m ∈ ((log.filter (fun x => decide (a < x))).take L).map msgOf,
            m.id ∉ idsOf (resumeSuccess t id).messages := by
          intro m hm hmem
          rcases List.mem_map.mp hm with ⟨q, hq, hqm⟩
          have hm_id : m.id = q := by
            rw [← hqm]
            rfl
          rw [hm_id] at hmem
          have hqC : q ∈ log.filter (fun x => decide (a < x)) :=
            (List.take_sublist _ _).subset hq
          rcases List.mem_filter.mp hqC with ⟨hqlog, hqgt'⟩
          have hqgt : a < q := by simpa using hqgt'
          rcases idsOf_mem_cases (resumeSuccess t id).messages q hmem with hpid | hnint
          · have hle : q ≤ a := pairwise_getLast?_ge (pids t.messages) hsort a ha q hpid
            exact absurd hqgt (not_lt.mpr hle)
          · rw [hlogint q hqlog] at hnint
            exact absurd hnint (by decide)
        have hcint : ∀ q ∈ (log.filter (fun x => decide (a < x))).take L,
            q.isInt = true := by
          intro q hq
          exact hlogint q ((List.filter_sublist _).subset ((List.take_sublist _ _).subset hq))
        have hpids : pids (applyFetchedMerge L Epoch.newer (resumeSuccess t id)
            (((log.filter (fun x => decide (a < x))).take L).map msgOf)).messages
            = pids t.messages ++ (log.filter (fun x => decide (a < x))).take L :=
          applyFetchedMerge_pids_newer L (resumeSuccess t id) _ hcint hdisj hpend htrans
        have hco := contig_extend_newer log (pids t.messages) L a hlogs hsort hsub hcontig ha
        refine ⟨?_, hside _⟩
        unfold WindowInv
        refine ⟨?_, ?_, ?_⟩ <;> rw [hpids]
        · exact hco.1
        · exact hco.2.1
        · exact hco.2.2
      | none =>
        have hanch1 : (anchorsOf t Epoch.newer).1 = none := by
          show Option.map Message.id (newestPersistentMessage t) = none
          rw [newest_pids]
          exact ha
        rw [hanch1, show (anchorsOf t Epoch.newer).2 = none from rfl,
            show serverChunk log L none none = takeLastN L log from rfl]
        have hPnil : pids t.messages = [] := List.getLast?_eq_none_iff.mp ha
        have hdisj : ∀ m ∈ (takeLastN L log).map msgOf,
            m.id ∉ idsOf (resumeSuccess t id).messages := by
          intro m hm hmem
          rcases List.mem_map.mp hm with ⟨q, hq, hqm⟩
          have hm_id : m.id = q := by
            rw [← hqm]
            rfl
          rw [hm_id] at hmem
          have hqlog : q ∈ log := (List.drop_sublist _ _).subset hq
          rcases idsOf_mem_cases (resumeSuccess t id).messages q hmem with hpid | hnint
          · have hpid' : q ∈ pids t.messages := hpid
            rw [hPnil] at hpid'
            exact absurd hpid' (List.not_mem_nil q)
          · rw [hlogint q hqlog] at hnint
            exact absurd hnint (by decide)
        have hcint : ∀ q ∈ takeLastN L log, q.isInt = true := by
          intro q hq
          exact hlogint q ((List.drop_sublist _ _).subset hq)
        have hpids : pids (applyFetchedMerge L Epoch.newer (resumeSuccess t id)
            ((takeLastN L log).map msgOf)).messages
            = pids t.messages ++ takeLastN L log :=
          applyFetchedMerge_pids_newer L (resumeSuccess t id) _ hcint hdisj hpend htrans
        have hco := contig_fresh log L hlogs
        refine ⟨?_, hside _⟩
        unfold WindowInv
        refine ⟨?_, ?_, ?_⟩ <;> rw [hpids, hPnil, List.nil_append]
        · exact hco.1
        · exact hco.2.1
        · exact hco.2.2

theorem runSeq_preserves (log : List Rat) (L : Nat) (es : List Epoch) :
    ∀ t : Thread, LogOk log → WindowInv log t → SideInv t →
      WindowInv log (runSeq log L t es) ∧ SideInv (runSeq log L t es) := by
  induction es with
  | nil =>
    intro t _ hw hs
    exact ⟨hw, hs⟩
  | cons e es ih =>
    intro t hlog hw hs
    obtain ⟨hw', hs'⟩ := stepFetchMore_preserves log L t e hlog hw hs
    exact ih (stepFetchMore log L t e) hlog hw' hs'

/-! ## C1 -/

/-- C1: for every sequence of `fetchMoreMessages("older")`/`("newer")` calls
against a fixed remote log with no concurrent window replacement (and no
concurrent pushes into the pending buffer), starting from a window satisfying
the contiguity invariant, the resulting window contains every persisted log id
strictly between its oldest and newest persisted ids — no holes. -/
theorem c1_contiguity (log : List Rat) (L : Nat) (t0 : Thread) (es : List Epoch)
    (hlog : LogOk log) (hw : WindowInv log t0) (hs : SideInv t0) :
    ∀ q ∈ log,
      (∃ lo ∈ pids (runSeq log L t0 es).messages, lo < q) →
      (∃ hi ∈ pids (runSeq log L t0 es).messages, q < hi) →
      q ∈ pids (runSeq log L t0 es).messages := by
  obtain ⟨hw', _⟩ := runSeq_preserves log L es t0 hlog hw hs
  obtain ⟨_, _, hcontig⟩ := hw'
  intro q hq hlo hhi
  rcases hlo with ⟨lo, h1, h2⟩
  rcases hhi with ⟨hi, h3, h4⟩
  exact hcontig q hq ⟨lo, h1, le_of_lt h2⟩ ⟨hi, h3, le_of_lt h4⟩

theorem c1_witness :
    (LogOk log5 ∧ WindowInv log5 tW1 ∧ SideInv tW1)
    ∧ (3 : Rat) ∈ pids (runSeq log5 2 tW1 [Epoch.older, Epoch.older]).messages :=
  ⟨⟨by unfold LogOk; decide, by unfold WindowInv; decide, by unfold SideInv; decide⟩,
   c1_contiguity log5 2 tW1 [Epoch.older, Epoch.older]
     (by unfold LogOk; decide) (by unfold WindowInv; decide) (by unfold SideInv; decide)
     3 (by decide) ⟨1, by decide, by decide⟩ ⟨5, by decide, by decide⟩⟩
